import Mathlib

/-!
# Events calendar: CSV loading, record normalisation and calendar queries

A shallow embedding of the data layer of `src/app.js`:
`parseCSV`, `parseCSVLine`, `normalizeEvent`, `parseDate`, `normalizeType`,
`getEventsForMonth`, `getEventsForDate`, the filter of `renderListView` and the
duration computed in `openModal`.

Modelling conventions.

* A JavaScript string is the list of its characters (`Str`).
* A JavaScript Number is an integer or NaN (`Num`, with `none` for NaN). Every number the
  program computes with is an integer produced by `parseInt`, by a Date getter or by
  subtracting two time values; they are kept exact, also beyond 2^53, where JavaScript would
  round a numeral of sixteen digits or more.
* A `Date` object is represented by its local time value (`LocalTime(t)` of ECMA-262) in
  milliseconds, or NaN for an Invalid Date: that is what its getters read and what
  `new Date(year, month, date)` is given. The calendar arithmetic (`Day`, `DayFromYear`,
  `YearFromTime`, `MonthFromTime`, `DateFromTime`, `MakeDay`, `TimeClip`, and the two-digit-year
  rule of the `Date` constructor) follows ECMA-262.
* The offset of local time from UTC (`LocalTZA`) is the host's. The program's order comparisons
  of dates, and the sign of its sort comparator, are taken on local time values: they agree with
  the comparisons of time values as long as a later local time is a later instant. The offset
  enters where the program uses the size of a difference of two dates, the duration shown by
  `openModal`. Local midnights are taken to exist (no clock change skips midnight), and the
  range limit of `TimeClip` is applied to the local time value.
* What the host decides and the program cannot see into is a parameter (`Host`): Unicode
  lower-casing (of which only `"".toLowerCase() === ""` is used), the implementation-defined
  parser behind `new Date(string)`, the stream of tokens
  `Math.random().toString(36).substr(2, 9)`, and the time zone.
* The global `events` array and the DOM-held filter settings are explicit arguments.
-/

namespace EventsCalendar

/-- A JavaScript string, as the list of its characters. -/
abbrev Str := List Char

/-- A JavaScript Number as far as this program uses one: an integer, or `none` for NaN. -/
abbrev Num := Option Int

/-- What the JavaScript host supplies. -/
structure Host where
  /-- The method `String.prototype.toLowerCase`. -/
  toLowerCase : Str → Str
  /-- The local time value of the date that `new Date(str)` parses out of a string, `none` for
  NaN. -/
  dateParse : Str → Num
  /-- The `k`-th token produced by `Math.random().toString(36).substr(2, 9)`. -/
  random : Nat → Str
  /-- The offset of local time from UTC, in milliseconds, in force at a local time value
  (`LocalTZA(t, false)` of ECMA-262). -/
  localTZA : Int → Int
  /-- Lower-casing the empty string gives the empty string. -/
  toLowerCase_nil : toLowerCase [] = []

/-! ## Strings -/

/-- The characters that `trim`, `parseInt` and the regular expression class `\s` treat as white
space: ECMA-262 WhiteSpace and LineTerminator. -/
def isWhiteSpace (c : Char) : Bool :=
  let n := c.toNat
  n = 0x09 || n = 0x0A || n = 0x0B || n = 0x0C || n = 0x0D || n = 0x20 || n = 0xA0 ||
  n = 0x1680 || (0x2000 ≤ n && n ≤ 0x200A) || n = 0x2028 || n = 0x2029 || n = 0x202F ||
  n = 0x205F || n = 0x3000 || n = 0xFEFF

/-- The method `String.prototype.trim`. -/
def trim (s : Str) : Str :=
  ((s.dropWhile isWhiteSpace).reverse.dropWhile isWhiteSpace).reverse

/-- The call `s.includes(sub)`: `sub` occurs in `s` as a contiguous substring. -/
def includes : Str → Str → Bool
  | [], sub => sub.isEmpty
  | c :: cs, sub => sub.isPrefixOf (c :: cs) || includes cs sub

/-- The call `s.split(sep)` for a one-character separator. -/
def split (sep : Char) : Str → List Str
  | [] => [[]]
  | c :: cs =>
    if c = sep then [] :: split sep cs
    else match split sep cs with
      | [] => [[c]]
      | p :: ps => (c :: p) :: ps

/-- The call `s.replace(/^"|"$/g, '')`: one double quote is removed from the start when there is
one, and one from the end of what is left. -/
def stripQuotes (s : Str) : Str :=
  let s1 := match s with
    | '"' :: r => r
    | _ => s
  match s1.reverse with
  | '"' :: r => r.reverse
  | _ => s1

/-- The loop behind `replaceSpaces`; `inRun` says that the previous character was white space, so
that the run it belongs to has already been replaced. -/
def replaceSpacesFrom : Bool → Str → Str
  | _, [] => []
  | inRun, c :: cs =>
    if isWhiteSpace c then
      if inRun then replaceSpacesFrom true cs else '_' :: replaceSpacesFrom true cs
    else c :: replaceSpacesFrom false cs

/-- The call `s.replace(/\s+/g, '_')`: every maximal run of white space becomes one underscore. -/
def replaceSpaces (s : Str) : Str := replaceSpacesFrom false s

/-- The expression `v || ''` on a value that is a string or `undefined`. -/
def orEmpty (v : Option Str) : Str :=
  match v with
  | some s => s
  | none => []

/-- The expression `a || b` on a value `a` that is a string or `undefined` and a string `b`: the
empty string and `undefined` are falsy. -/
def orElse (a : Option Str) (b : Str) : Str :=
  match a with
  | some (c :: cs) => c :: cs
  | _ => b

/-! ## Numbers -/

/-- The value of a character as a digit, letters counting from ten. -/
def digitValue (c : Char) : Option Nat :=
  let n := c.toNat
  if 48 ≤ n ∧ n ≤ 57 then some (n - 48)
  else if 97 ≤ n ∧ n ≤ 122 then some (n - 87)
  else if 65 ≤ n ∧ n ≤ 90 then some (n - 55)
  else none

/-- The value of a character as a digit of radix `R`, when it is one. -/
def radixDigit (R : Nat) (c : Char) : Option Nat :=
  match digitValue c with
  | some d => if d < R then some d else none
  | none => none

/-- The value of the longest prefix of radix-`R` digits, continuing from `acc`; `none` when no
digit has been read. -/
def parseDigits (R : Nat) : Str → Option Nat → Option Nat
  | [], acc => acc
  | c :: cs, acc =>
    match radixDigit R c with
    | some d => parseDigits R cs (some (acc.getD 0 * R + d))
    | none => acc

/-- The sign that `parseInt` reads off the front of a string, and the rest of the string. -/
def parseSign (s : Str) : Int × Str :=
  match s with
  | '-' :: r => (-1, r)
  | '+' :: r => (1, r)
  | _ => (1, s)

/-- The radix that `parseInt` chooses when it is given none, 16 after a prefix `0x` or `0X` and
10 otherwise, and the rest of the string. -/
def parseRadix (s : Str) : Nat × Str :=
  match s with
  | '0' :: 'x' :: r => (16, r)
  | '0' :: 'X' :: r => (16, r)
  | _ => (10, s)

/-- The function `parseInt(s)` with no radix argument: leading white space is skipped, a sign is
read, a prefix `0x` or `0X` selects radix 16, and the longest prefix of digits is the value; NaN
when there is no digit. -/
def parseInt (s : Str) : Num :=
  let signed := parseSign (s.dropWhile isWhiteSpace)
  let radixed := parseRadix signed.2
  match parseDigits radixed.1 radixed.2 none with
  | some v => some (signed.1 * (v : Int))
  | none => none

/-- Subtraction of Numbers: NaN when either side is NaN. -/
def numSub (a b : Num) : Num :=
  match a, b with
  | some x, some y => some (x - y)
  | _, _ => none

/-- The comparison `a <= b` of Numbers: false when either side is NaN. -/
def numLe (a b : Num) : Bool :=
  match a, b with
  | some x, some y => decide (x ≤ y)
  | _, _ => false

/-- The comparison `a < b` of Numbers: false when either side is NaN. -/
def numLt (a b : Num) : Bool :=
  match a, b with
  | some x, some y => decide (x < y)
  | _, _ => false

/-- The comparison `a === b` of Numbers: false when either side is NaN. -/
def numEq (a b : Num) : Bool :=
  match a, b with
  | some x, some y => decide (x = y)
  | _, _ => false

/-- The comparison `a > b` of Numbers: false when either side is NaN. -/
def numGt (a b : Num) : Bool := numLt b a

/-- The comparison `a >= b` of Numbers: false when either side is NaN. -/
def numGe (a b : Num) : Bool := numLe b a

/-! ## Dates (ECMA-262, Date objects) -/

/-- Milliseconds in a day. -/
def msPerDay : Int := 86400000

/-- The day number of a time value: `floor(t / msPerDay)`. -/
def Day (t : Int) : Int := t / msPerDay

/-- The number of days of year `y` in the proleptic Gregorian calendar. -/
def DaysInYear (y : Int) : Int :=
  if y % 4 ≠ 0 then 365 else if y % 100 ≠ 0 then 366 else if y % 400 ≠ 0 then 365 else 366

/-- The day number of the first day of year `y`. -/
def DayFromYear (y : Int) : Int :=
  365 * (y - 1970) + (y - 1969) / 4 - (y - 1901) / 100 + (y - 1601) / 400

/-- The year a day number falls in: the largest `y` with `DayFromYear y ≤ n`, found from an
estimate that is off by at most one. -/
def YearFromDay (n : Int) : Int :=
  let y := 1970 + (400 * n) / 146097
  if n < DayFromYear y then y - 1 else if DayFromYear (y + 1) ≤ n then y + 1 else y

/-- One in a leap year, zero otherwise. -/
def InLeapYear (y : Int) : Int := if DaysInYear y = 366 then 1 else 0

/-- The number of days of a year that precede its month `m` (0 for January, up to 11 for
December; 12 gives the length of the year), `l` being one in a leap year and zero otherwise. -/
def monthOffset (l m : Int) : Int :=
  if m ≤ 0 then 0 else if m = 1 then 31 else if m = 2 then 59 + l
  else if m = 3 then 90 + l else if m = 4 then 120 + l else if m = 5 then 151 + l
  else if m = 6 then 181 + l else if m = 7 then 212 + l else if m = 8 then 243 + l
  else if m = 9 then 273 + l else if m = 10 then 304 + l else if m = 11 then 334 + l
  else 365 + l

/-- The day within its year of a day number, from zero. -/
def DayWithinYear (n : Int) : Int := n - DayFromYear (YearFromDay n)

/-- The month (0 to 11) of the day `d` within its year, `l` being one in a leap year and zero
otherwise. -/
def monthOfYearDay (l d : Int) : Int :=
  if d < 31 then 0 else if d < 59 + l then 1 else if d < 90 + l then 2
  else if d < 120 + l then 3 else if d < 151 + l then 4 else if d < 181 + l then 5
  else if d < 212 + l then 6 else if d < 243 + l then 7 else if d < 273 + l then 8
  else if d < 304 + l then 9 else if d < 334 + l then 10 else 11

/-- The month (0 to 11) a day number falls in. -/
def MonthFromDay (n : Int) : Int :=
  monthOfYearDay (InLeapYear (YearFromDay n)) (DayWithinYear n)

/-- The day of the month (from 1) of a day number. -/
def DateFromDay (n : Int) : Int :=
  DayWithinYear n - monthOffset (InLeapYear (YearFromDay n)) (MonthFromDay n) + 1

/-- The abstract operation MakeDay: the day number of day `date` of month `month` of year `year`,
months beyond 0..11 carrying into the year and days beyond the month carrying on. -/
def MakeDay (year month date : Int) : Int :=
  let ym := year + month / 12
  let mn := month % 12
  DayFromYear ym + monthOffset (InLeapYear ym) mn + date - 1

/-- The abstract operation TimeClip: a time value further than 8.64e15 ms from the epoch is NaN. -/
def TimeClip (t : Int) : Num :=
  if t < -8640000000000000 ∨ 8640000000000000 < t then none else some t

/-- A `Date` object: its local time value, `none` for an Invalid Date. -/
structure JSDate where
  /-- The local time value in milliseconds. -/
  time : Num
  deriving DecidableEq, Repr

/-- The constructor `new Date(year, month, date)`: NaN arguments give an Invalid Date, a year
from 0 to 99 stands for 1900 + year, and the time is midnight of the day MakeDay gives. -/
def newDate (year month date : Num) : JSDate :=
  match year, month, date with
  | some y, some m, some dt =>
    let yr := if 0 ≤ y ∧ y ≤ 99 then 1900 + y else y
    ⟨TimeClip (MakeDay yr m dt * msPerDay)⟩
  | _, _, _ => ⟨none⟩

/-- The constructor `new Date(str)`. -/
def newDateOfString (H : Host) (str : Str) : JSDate :=
  match H.dateParse str with
  | some t => ⟨TimeClip t⟩
  | none => ⟨none⟩

/-- The method `getFullYear`. -/
def JSDate.getFullYear (d : JSDate) : Num := d.time.map fun t => YearFromDay (Day t)

/-- The method `getMonth`. -/
def JSDate.getMonth (d : JSDate) : Num := d.time.map fun t => MonthFromDay (Day t)

/-- The method `getDate`. -/
def JSDate.getDate (d : JSDate) : Num := d.time.map fun t => DateFromDay (Day t)

/-! ## Records -/

/-- A raw row: the object built from one CSV line or one fallback record, as the list of its
assignments, the latest first. -/
abbrev RawRow := List (Str × Str)

/-- The property read `obj[key]`: `none` for `undefined`. -/
def getField (obj : RawRow) (key : Str) : Option Str := obj.lookup key

/-- A normalised event. -/
structure Event where
  id : Str
  name : Str
  startDate : JSDate
  endDate : JSDate
  city : Str
  country : Str
  type : Str
  notes : Str
  isMultiDay : Bool
  deriving DecidableEq, Repr

/-- The function `normalizeType`. -/
def normalizeType (H : Host) (type : Str) : Str :=
  let t := trim (H.toLowerCase type)
  if includes t "rofintech".data then "rofintech".data
  else if includes t "finqware".data then "finqware".data
  else if includes t "personal".data then "personal".data
  else "finqware".data

/-- The function `parseDate`: `none` is `null`. -/
def parseDate (H : Host) (str : Str) : Option JSDate :=
  if str = [] then none
  else
    let generic : Option JSDate :=
      let d := newDateOfString H str
      if d.time = none then none else some d
    match split '/' str with
    | [p0, p1, p2] =>
      let month := numSub (parseInt p0) (some 1)
      let day := parseInt p1
      let year := parseInt p2
      if month ≠ none ∧ day ≠ none ∧ year ≠ none then some (newDate year month day)
      else generic
    | _ => generic

/-- The function `normalizeEvent`: `none` is `null`; `rnd` is the token that
`Math.random().toString(36).substr(2, 9)` yields when the row has no identifier. -/
def normalizeEvent (H : Host) (rnd : Str) (obj : RawRow) : Option Event :=
  let name := orElse (getField obj "event_name".data) (orElse (getField obj "event_name".data) [])
  let startStr := orElse (getField obj "start_date".data) (orElse (getField obj "start_date".data) [])
  let endStr := orElse (getField obj "end_date".data) (orElse (getField obj "end_date".data) [])
  let city := orElse (getField obj "city".data) []
  let country := orElse (getField obj "country".data) []
  let type := orElse (getField obj "type".data) []
  let notes := orElse (getField obj "notes".data) []
  let num := orElse (getField obj "#".data) []
  if name = [] ∨ startStr = [] then none
  else
    let startDate := parseDate H startStr
    let endDate := (parseDate H endStr).orElse fun _ => startDate
    match startDate, endDate with
    | some sd, some ed =>
      some {
        id := if num = [] then rnd else num
        name := name
        startDate := sd
        endDate := ed
        city := city
        country := country
        type := normalizeType H type
        notes := notes
        isMultiDay := numGt ed.time sd.time }
    | _, _ => none

/-! ## Loading -/

/-- The loop of `parseCSVLine` over the characters not yet read, with its three variables
`result`, `current` and `inQuotes`. The character after the one being read, `line[i + 1]`, is
`undefined` at the last character. -/
def parseCSVLineLoop : Str → List Str → Str → Bool → List Str
  | [], result, current, _ => result ++ [current]
  | [c], result, current, inQuotes =>
    if c = '"' then parseCSVLineLoop [] result current (!inQuotes)
    else if c = ',' ∧ inQuotes = false then parseCSVLineLoop [] (result ++ [current]) [] inQuotes
    else parseCSVLineLoop [] result (current ++ [c]) inQuotes
  | c :: d :: rest, result, current, inQuotes =>
    if c = '"' then
      if inQuotes = true ∧ d = '"' then parseCSVLineLoop rest result (current ++ ['"']) inQuotes
      else parseCSVLineLoop (d :: rest) result current (!inQuotes)
    else if c = ',' ∧ inQuotes = false then
      parseCSVLineLoop (d :: rest) (result ++ [current]) [] inQuotes
    else parseCSVLineLoop (d :: rest) result (current ++ [c]) inQuotes

/-- The function `parseCSVLine`. -/
def parseCSVLine (line : Str) : List Str := parseCSVLineLoop line [] [] false

/-- The key a header cell becomes:
`h.trim().replace(/^"|"$/g, '').toLowerCase().replace(/\s+/g, '_')`. -/
def headerKey (H : Host) (h : Str) : Str :=
  replaceSpaces (H.toLowerCase (stripQuotes (trim h)))

/-- The value a cell becomes: `(values[idx] || '').replace(/^"|"$/g, '').trim()`. -/
def cellValue (v : Option Str) : Str := trim (stripQuotes (orEmpty v))

/-- The loop `headers.forEach((h, idx) => obj[key(h)] = value(values[idx]))`, `values` being the
cells from index `idx` on. -/
def buildRow (H : Host) : List Str → List Str → RawRow → RawRow
  | [], _, obj => obj
  | h :: hs, values, obj =>
    buildRow H hs values.tail ((headerKey H h, cellValue values.head?) :: obj)

/-- The loop of `parseCSV` over the lines after the header: the events pushed to `result`, in
order. `k` counts the random tokens drawn so far. -/
def parseCSVRows (H : Host) (headers : List Str) : List Str → Nat → List Event
  | [], _ => []
  | l :: ls, k =>
    let line := trim l
    if line = [] then parseCSVRows H headers ls k
    else
      let obj := buildRow H headers (parseCSVLine line) []
      if orElse (getField obj "event_name".data) [] = [] then parseCSVRows H headers ls k
      else
        match normalizeEvent H (H.random k) obj with
        | some event =>
          event :: parseCSVRows H headers ls
            (if orElse (getField obj "#".data) [] = [] then k + 1 else k)
        | none => parseCSVRows H headers ls k

/-- The value of the comparator `(a, b) => a.startDate - b.startDate`. -/
def compareStart (a b : Event) : Num := numSub a.startDate.time b.startDate.time

/-- Whether the sort must place `b` before `a`: the comparator is positive. A NaN comparator
value counts as zero. -/
def sortsAfter (a b : Event) : Bool :=
  match compareStart a b with
  | some v => decide (0 < v)
  | none => false

/-- Insertion of an event into a sorted list, after the events it does not sort before. -/
def sortInsert (x : Event) : List Event → List Event
  | [] => [x]
  | y :: ys => if sortsAfter x y then y :: sortInsert x ys else x :: y :: ys

/-- The call `list.sort((a, b) => a.startDate - b.startDate)`, as a stable insertion sort. -/
def sortByStart : List Event → List Event
  | [] => []
  | x :: xs => sortInsert x (sortByStart xs)

/-- The function `parseCSV`. -/
def parseCSV (H : Host) (csv : Str) : List Event :=
  match split '\n' csv with
  | header :: l :: ls => sortByStart (parseCSVRows H (parseCSVLine header) (l :: ls) 0)
  | _ => []

/-! ## Calendar queries -/

/-- The callback of the filter in `getEventsForMonth`. -/
def eventInMonth (month year : Int) (ev : Event) : Bool :=
  let startMonth := ev.startDate.getMonth
  let startYear := ev.startDate.getFullYear
  let endMonth := ev.endDate.getMonth
  let endYear := ev.endDate.getFullYear
  (numEq startYear (some year) && numEq startMonth (some month)) ||
  (numEq endYear (some year) && numEq endMonth (some month)) ||
  (numLe ev.startDate.time (newDate (some year) (some (month + 1)) (some 0)).time &&
    numGe ev.endDate.time (newDate (some year) (some month) (some 1)).time)

/-- The third disjunct of the callback of the filter in `getEventsForMonth`, alone: the single
overlap test `startDate <= last day of the month && endDate >= first day of the month`. -/
def eventOverlapsMonth (month year : Int) (ev : Event) : Bool :=
  numLe ev.startDate.time (newDate (some year) (some (month + 1)) (some 0)).time &&
    numGe ev.endDate.time (newDate (some year) (some month) (some 1)).time

/-- The function `getEventsForMonth`, the global `events` being an argument. -/
def getEventsForMonth (events : List Event) (month year : Int) : List Event :=
  events.filter (eventInMonth month year)

/-- The date with its time of day removed:
`new Date(d.getFullYear(), d.getMonth(), d.getDate())`. -/
def startOfDay (d : JSDate) : JSDate := newDate d.getFullYear d.getMonth d.getDate

/-- The callback of the filter in `getEventsForDate`, `d` being the date asked for with its time
of day removed. -/
def eventOnDate (d : JSDate) (ev : Event) : Bool :=
  let start := startOfDay ev.startDate
  let «end» := startOfDay ev.endDate
  numGe d.time start.time && numLe d.time «end».time

/-- The function `getEventsForDate`; `monthEvents` is `none` when the argument is left out, and
the global `events` is then filtered. -/
def getEventsForDate (events : List Event) (date : JSDate) (monthEvents : Option (List Event)) :
    List Event :=
  let d := startOfDay date
  (monthEvents.getD events).filter (eventOnDate d)

/-- The list `filtered` that `renderListView` renders: `currentFilter` is the global of that
name, `searchInput` the value of the search box, and `activeCountryChip` the `data-filter` of
the active country chip, `none` when no chip is active. -/
def renderListView (H : Host) (events : List Event) (currentFilter searchInput : Str)
    (activeCountryChip : Option Str) : List Event :=
  let searchTerm := H.toLowerCase searchInput
  let filtered := events.filter fun ev =>
    if currentFilter ≠ "all".data ∧ H.toLowerCase ev.type ≠ H.toLowerCase currentFilter then false
    else if searchTerm ≠ [] ∧ includes (H.toLowerCase ev.name) searchTerm = false ∧
        includes (H.toLowerCase ev.city) searchTerm = false ∧
        includes (H.toLowerCase ev.country) searchTerm = false then false
    else true
  match activeCountryChip with
  | some c =>
    if c ≠ "all-countries".data then filtered.filter fun ev => decide (ev.country = c)
    else filtered
  | none => filtered

/-- The abstract operation UTC: the time value of a local time value. -/
def UTC (H : Host) (t : Int) : Int := t - H.localTZA t

/-- The Number a `Date` object converts to in an arithmetic expression: its time value. -/
def JSDate.valueOf (H : Host) (d : JSDate) : Num := d.time.map (UTC H)

/-- The duration `openModal` shows for a multi-day event:
`Math.ceil((ev.endDate - ev.startDate) / (1000 * 60 * 60 * 24)) + 1`. -/
def duration (H : Host) (ev : Event) : Num :=
  match numSub (ev.endDate.valueOf H) (ev.startDate.valueOf H) with
  | some v => some (-((-v) / (1000 * 60 * 60 * 24)) + 1)
  | none => none


/-! ## Vocabulary of the specification -/

/-- A field as a CSV writer puts it on a line: between double quotes, every double quote inside
it doubled. -/
def quoteField (f : Str) : Str :=
  '"' :: (f.flatMap fun c => if c = '"' then ['"', '"'] else [c]) ++ ['"']

/-- Strings joined with commas. -/
def joinWithCommas : List Str → Str
  | [] => []
  | [f] => f
  | f :: g :: fs => f ++ ',' :: joinWithCommas (g :: fs)

/-- The line that carries the given fields, each quoted. -/
def writeCSVLine (fields : List Str) : Str := joinWithCommas (fields.map quoteField)

/-- The value of a string of decimal digits read from `acc` on, `none` when a character is not a
decimal digit. -/
def decimalValueFrom : Nat → Str → Option Nat
  | acc, [] => some acc
  | acc, c :: cs =>
    if 48 ≤ c.toNat ∧ c.toNat ≤ 57 then decimalValueFrom (acc * 10 + (c.toNat - 48)) cs
    else none

/-- The number a decimal numeral denotes, leading zeros allowed: `none` for the empty string and
for a string with a character that is not a decimal digit. -/
def decimalValue (s : Str) : Option Nat :=
  match s with
  | [] => none
  | c :: cs => decimalValueFrom 0 (c :: cs)

/-- The number of days of month `m` (1 to 12) of year `y` in the Gregorian calendar. -/
def daysInMonth (y m : Int) : Int :=
  if m = 2 then (if y % 4 = 0 ∧ (y % 100 ≠ 0 ∨ y % 400 = 0) then 29 else 28)
  else if m = 4 ∨ m = 6 ∨ m = 9 ∨ m = 11 then 30
  else 31

/-- The date at midnight of day `d` of month `m` (1 to 12) of year `y`, with no two-digit-year
rule. -/
def civil (y m d : Int) : JSDate := ⟨some (MakeDay y (m - 1) d * msPerDay)⟩

/-- The calendar date `d1` of month `m1` of year `y1` is strictly before the date `d2` of month
`m2` of year `y2`. -/
def civilBefore (y1 m1 d1 y2 m2 d2 : Int) : Prop :=
  y1 < y2 ∨ (y1 = y2 ∧ (m1 < m2 ∨ (m1 = m2 ∧ d1 < d2)))

/-- The number of calendar days from the day of the local time `s` to the day of the local time
`t`, both included. -/
def daysInclusive (s t : Int) : Nat := (Finset.Icc (Day s) (Day t)).card

/-- Lines joined with line feeds into one document. -/
def joinLines : List Str → Str
  | [] => []
  | [l] => l
  | l :: m :: ls => l ++ '\n' :: joinLines (m :: ls)

/-- The object `parseCSV` builds from a data line under the given header cells. -/
def rowOfLine (H : Host) (headers : List Str) (line : Str) : RawRow :=
  buildRow H headers (parseCSVLine (trim line)) []

/-- A list of events is sorted ascending by start date: of every two adjacent events the earlier
one's `startDate` is `<=` the later one's. -/
def isSortedByStart : List Event → Bool
  | [] => true
  | [_] => true
  | a :: b :: rest => numLe a.startDate.time b.startDate.time && isSortedByStart (b :: rest)

/-! ## Concrete hosts and inputs for the worked examples -/

/-- A host that lower-cases ASCII letters, whose date parser accepts nothing, whose random
tokens are all `"r"`, and whose local time is UTC. -/
def asciiHost : Host where
  toLowerCase := fun s => s.map Char.toLower
  dateParse := fun _ => none
  random := fun _ => ['r']
  localTZA := fun _ => 0
  toLowerCase_nil := rfl

/-- The host `asciiHost` in the time zone Europe/Bucharest during 2026: local time is two hours
ahead of UTC until 03:00 of 29 March, three hours ahead from then until 04:00 of 25 October, and
two hours ahead from then on. -/
def bucharestHost : Host :=
  { asciiHost with
    localTZA := fun t =>
      if t < MakeDay 2026 2 29 * msPerDay + 3 * 3600000 then 2 * 3600000
      else if t < MakeDay 2026 9 25 * msPerDay + 4 * 3600000 then 3 * 3600000
      else 2 * 3600000 }

/-- An event with the given start and end dates and nothing else. -/
def eventBetween (name : Str) (startDate endDate : JSDate) : Event where
  id := ['r']
  name := name
  startDate := startDate
  endDate := endDate
  city := []
  country := []
  type := "finqware".data
  notes := []
  isMultiDay := numGt endDate.time startDate.time

/-- A row whose end date is two days before its start date. -/
def rowEndBeforeStart : RawRow :=
  [("event_name".data, "Launch".data), ("start_date".data, "03/17/2026".data),
    ("end_date".data, "03/15/2026".data)]

/-- A CSV document whose only data row is `rowEndBeforeStart`. -/
def csvEndBeforeStart : Str :=
  "event_name,start_date,end_date\nLaunch,03/17/2026,03/15/2026".data

/-- The event that `normalizeEvent` makes of `rowEndBeforeStart`. -/
def eventEndBeforeStart : Event :=
  eventBetween "Launch".data (civil 2026 3 17) (civil 2026 3 15)

/-- Three events for the list view: a personal conference, a company conference and a personal
trip. -/
def listViewEvents : List Event :=
  [{ eventBetween "Rust Conference".data (civil 2026 5 4) (civil 2026 5 6) with
      city := "Cluj".data, country := "Romania".data, type := "personal".data },
    { eventBetween "Fintech CONFERENCE".data (civil 2026 6 1) (civil 2026 6 1) with
      city := "Vienna".data, country := "Austria".data, type := "finqware".data },
    { eventBetween "Hiking".data (civil 2026 7 10) (civil 2026 7 12) with
      city := "Conference Peak".data, country := "Romania".data, type := "personal".data },
    { eventBetween "Holiday".data (civil 2026 8 1) (civil 2026 8 9) with
      city := "Split".data, country := "Croatia".data, type := "personal".data }]

/-- A row from 24 October 2026 to 26 October 2026. -/
def rowOctober : RawRow :=
  [("event_name".data, "Workshop".data), ("start_date".data, "10/24/2026".data),
    ("end_date".data, "10/26/2026".data)]

/-- The event that `normalizeEvent` makes of `rowOctober`. -/
def eventOctober : Event :=
  eventBetween "Workshop".data (civil 2026 10 24) (civil 2026 10 26)

/-- A row from 15 March 2026 to 17 March 2026 that has no `event_name`. -/
def rowMarchNoName : RawRow :=
  [("start_date".data, "03/15/2026".data), ("end_date".data, "03/17/2026".data)]

/-- A row from 15 March 2026 to 17 March 2026. -/
def rowMarch : RawRow :=
  [("event_name".data, "Summit".data), ("start_date".data, "03/15/2026".data),
    ("end_date".data, "03/17/2026".data)]

/-- The event that `normalizeEvent` makes of `rowMarch`. -/
def eventMarch : Event :=
  eventBetween "Summit".data (civil 2026 3 15) (civil 2026 3 17)

/-- A header line with the four columns the rows below fill. -/
def lineHeader : Str := "#,Event Name,Start Date,End Date".data

/-- A well-formed data line with an identifier. -/
def lineLaunch : Str := "1,Launch,03/15/2026,03/17/2026".data

/-- The second well-formed data line. -/
def lineDemo : Str := "2,\"Demo, live\",01/10/2026,".data

/-- A data line with an empty event name. -/
def lineNoName : Str := "7,,02/01/2026,".data

/-- A data line with an empty start date. -/
def lineNoStart : Str := "8,Orphan,,02/03/2026".data

/-- A data line whose start date is not a date. -/
def lineBadStart : Str := "9,Broken,not-a-date,".data

/-- An event on 10 March of year 50. -/
def eventMarchYear50 : Event := eventBetween "Games".data (civil 50 3 10) (civil 50 3 10)

/-- An event on 25 April of year -271821, the month in which the range of `Date` begins. -/
def eventFirstMonth : Event :=
  eventBetween "Dawn".data (civil (-271821) 4 25) (civil (-271821) 4 25)

/-- An event from 1 December of year 49 to 31 January of year 51. -/
def eventAcrossYear50 : Event := eventBetween "Census".data (civil 49 12 1) (civil 51 1 31)

/-- An event on 31 March 1950 from 10:00 to 11:00. -/
def eventMorning1950 : Event :=
  eventBetween "Briefing".data ⟨some (MakeDay 1950 2 31 * msPerDay + 36000000)⟩
    ⟨some (MakeDay 1950 2 31 * msPerDay + 39600000)⟩

/-- An event from 1 January of year 40 to 1 January of year 60. -/
def eventYears40To60 : Event := eventBetween "Reign".data (civil 40 1 1) (civil 60 1 1)

/-- An event from 28 February 2026 to 2 March 2026. -/
def eventFebToMar : Event := eventBetween "Summit".data (civil 2026 2 28) (civil 2026 3 2)

/-- An event from 30 March 2026 to 2 April 2026. -/
def eventMarToApr : Event := eventBetween "Expo".data (civil 2026 3 30) (civil 2026 4 2)

/-- A CSV document whose first data row has a start date beyond the range of `Date`. -/
def csvYearOutOfRange : Str :=
  "event_name,start_date\nFar,1/1/300000\nNear,1/1/2026".data

/-! # Theorems -/

/-! ## Calendar arithmetic -/

theorem DayFromYear_succ (y : Int) : DayFromYear (y + 1) = DayFromYear y + DaysInYear y := by
  unfold DayFromYear DaysInYear
  split_ifs <;> omega

theorem DaysInYear_eq (y : Int) :
    DaysInYear y = 365 + InLeapYear y ∧ (InLeapYear y = 0 ∨ InLeapYear y = 1) := by
  unfold InLeapYear DaysInYear
  split_ifs <;> omega

theorem DayFromYear_lower (y : Int) : 146097 * (y - 1970) - 600 ≤ 400 * DayFromYear y := by
  unfold DayFromYear; omega

theorem DayFromYear_upper (y : Int) : 400 * DayFromYear y ≤ 146097 * (y - 1970) + 600 := by
  unfold DayFromYear; omega

theorem YearFromDay_eq (n y : Int) (h1 : DayFromYear y ≤ n) (h2 : n < DayFromYear (y + 1)) :
    YearFromDay n = y := by
  have hl := DayFromYear_lower y
  have hu := DayFromYear_upper (y + 1)
  have hs := DayFromYear_succ
  have hp := DaysInYear_eq
  have hy : 1970 + (400 * n) / 146097 = y - 1 ∨ 1970 + (400 * n) / 146097 = y ∨
      1970 + (400 * n) / 146097 = y + 1 := by omega
  unfold YearFromDay
  simp only
  rcases hy with hy | hy | hy <;> rw [hy]
  · have a1 := hs (y - 1); have a2 := hp (y - 1)
    rw [show y - 1 + 1 = y by ring] at a1 ⊢
    rw [if_neg (by omega), if_pos h1]
  · rw [if_neg (by omega), if_neg (by omega)]
  · have a1 := hs y; have a2 := hp y
    rw [if_pos (by omega)]; ring

theorem YearFromDay_spec (n : Int) :
    DayFromYear (YearFromDay n) ≤ n ∧ n < DayFromYear (YearFromDay n + 1) := by
  have hl := DayFromYear_lower
  have hu := DayFromYear_upper
  have hs := DayFromYear_succ
  have hp := DaysInYear_eq
  unfold YearFromDay
  simp only
  generalize hy : 1970 + (400 * n) / 146097 = y0
  have b1 := hl y0; have b2 := hu y0; have b3 := hs y0; have b4 := hp y0
  have c1 := hs (y0 - 1); have c2 := hp (y0 - 1); have c3 := hl (y0 - 1)
  have d1 := hs (y0 + 1); have d2 := hp (y0 + 1); have d3 := hu (y0 + 1 + 1)
  rw [show y0 - 1 + 1 = y0 by ring] at c1
  split_ifs with h1 h2
  · rw [show y0 - 1 + 1 = y0 by ring]; constructor <;> omega
  · constructor <;> omega
  · constructor <;> omega

theorem YearFromDay_iff (n y : Int) :
    YearFromDay n = y ↔ DayFromYear y ≤ n ∧ n < DayFromYear (y + 1) :=
  ⟨fun h => h ▸ YearFromDay_spec n, fun h => YearFromDay_eq n y h.1 h.2⟩

theorem DayFromYear_mono {a b : Int} (h : a ≤ b) : DayFromYear a ≤ DayFromYear b := by
  have h1 := DayFromYear_lower
  unfold DayFromYear; omega

theorem monthOfYearDay_range (l d : Int) : 0 ≤ monthOfYearDay l d ∧ monthOfYearDay l d ≤ 11 := by
  generalize hm : monthOfYearDay l d = m
  unfold monthOfYearDay at hm
  by_cases h0 : d < 31
  · rw [if_pos h0] at hm; omega
  rw [if_neg h0] at hm
  by_cases h1 : d < 59 + l
  · rw [if_pos h1] at hm; omega
  rw [if_neg h1] at hm
  by_cases h2 : d < 90 + l
  · rw [if_pos h2] at hm; omega
  rw [if_neg h2] at hm
  by_cases h3 : d < 120 + l
  · rw [if_pos h3] at hm; omega
  rw [if_neg h3] at hm
  by_cases h4 : d < 151 + l
  · rw [if_pos h4] at hm; omega
  rw [if_neg h4] at hm
  by_cases h5 : d < 181 + l
  · rw [if_pos h5] at hm; omega
  rw [if_neg h5] at hm
  by_cases h6 : d < 212 + l
  · rw [if_pos h6] at hm; omega
  rw [if_neg h6] at hm
  by_cases h7 : d < 243 + l
  · rw [if_pos h7] at hm; omega
  rw [if_neg h7] at hm
  by_cases h8 : d < 273 + l
  · rw [if_pos h8] at hm; omega
  rw [if_neg h8] at hm
  by_cases h9 : d < 304 + l
  · rw [if_pos h9] at hm; omega
  rw [if_neg h9] at hm
  by_cases h10 : d < 334 + l
  · rw [if_pos h10] at hm; omega
  rw [if_neg h10] at hm
  omega

theorem monthOffset_lit (l : Int) :
    monthOffset l 0 = 0 ∧ monthOffset l 1 = 31 ∧ monthOffset l 2 = 59 + l ∧
    monthOffset l 3 = 90 + l ∧ monthOffset l 4 = 120 + l ∧ monthOffset l 5 = 151 + l ∧
    monthOffset l 6 = 181 + l ∧ monthOffset l 7 = 212 + l ∧ monthOffset l 8 = 243 + l ∧
    monthOffset l 9 = 273 + l ∧ monthOffset l 10 = 304 + l ∧ monthOffset l 11 = 334 + l ∧
    monthOffset l 12 = 365 + l := by
  refine ⟨?_, ?_, ?_, ?_, ?_, ?_, ?_, ?_, ?_, ?_, ?_, ?_, ?_⟩ <;> rfl

theorem monthOffset_bounds (l m : Int) (hl : l = 0 ∨ l = 1) (hm : 0 ≤ m ∧ m ≤ 11) :
    0 ≤ monthOffset l m ∧ monthOffset l m + 28 ≤ monthOffset l (m + 1) ∧
      monthOffset l (m + 1) ≤ monthOffset l m + 31 ∧ monthOffset l (m + 1) ≤ 365 + l := by
  have : m = 0 ∨ m = 1 ∨ m = 2 ∨ m = 3 ∨ m = 4 ∨ m = 5 ∨ m = 6 ∨ m = 7 ∨ m = 8 ∨ m = 9 ∨
      m = 10 ∨ m = 11 := by omega
  obtain ⟨o0, o1, o2, o3, o4, o5, o6, o7, o8, o9, o10, o11, o12⟩ := monthOffset_lit l
  rcases this with h | h | h | h | h | h | h | h | h | h | h | h
  · subst h; rw [show (0 : Int) + 1 = 1 from rfl, o0, o1]; clear o0 o1 o2 o3 o4 o5 o6 o7 o8 o9 o10 o11 o12; omega
  · subst h; rw [show (1 : Int) + 1 = 2 from rfl, o1, o2]; clear o0 o1 o2 o3 o4 o5 o6 o7 o8 o9 o10 o11 o12; omega
  · subst h; rw [show (2 : Int) + 1 = 3 from rfl, o2, o3]; clear o0 o1 o2 o3 o4 o5 o6 o7 o8 o9 o10 o11 o12; omega
  · subst h; rw [show (3 : Int) + 1 = 4 from rfl, o3, o4]; clear o0 o1 o2 o3 o4 o5 o6 o7 o8 o9 o10 o11 o12; omega
  · subst h; rw [show (4 : Int) + 1 = 5 from rfl, o4, o5]; clear o0 o1 o2 o3 o4 o5 o6 o7 o8 o9 o10 o11 o12; omega
  · subst h; rw [show (5 : Int) + 1 = 6 from rfl, o5, o6]; clear o0 o1 o2 o3 o4 o5 o6 o7 o8 o9 o10 o11 o12; omega
  · subst h; rw [show (6 : Int) + 1 = 7 from rfl, o6, o7]; clear o0 o1 o2 o3 o4 o5 o6 o7 o8 o9 o10 o11 o12; omega
  · subst h; rw [show (7 : Int) + 1 = 8 from rfl, o7, o8]; clear o0 o1 o2 o3 o4 o5 o6 o7 o8 o9 o10 o11 o12; omega
  · subst h; rw [show (8 : Int) + 1 = 9 from rfl, o8, o9]; clear o0 o1 o2 o3 o4 o5 o6 o7 o8 o9 o10 o11 o12; omega
  · subst h; rw [show (9 : Int) + 1 = 10 from rfl, o9, o10]; clear o0 o1 o2 o3 o4 o5 o6 o7 o8 o9 o10 o11 o12; omega
  · subst h; rw [show (10 : Int) + 1 = 11 from rfl, o10, o11]; clear o0 o1 o2 o3 o4 o5 o6 o7 o8 o9 o10 o11 o12; omega
  · subst h; rw [show (11 : Int) + 1 = 12 from rfl, o11, o12]; clear o0 o1 o2 o3 o4 o5 o6 o7 o8 o9 o10 o11 o12; omega

theorem monthOffset_mono (l m k : Int) (hl : l = 0 ∨ l = 1) (hm : 0 ≤ m) (hk : m ≤ k)
    (hk12 : k ≤ 12) : monthOffset l m ≤ monthOffset l k := by
  obtain ⟨j, rfl⟩ : ∃ j : ℕ, k = m + j := ⟨(k - m).toNat, by omega⟩
  clear hk
  induction j with
  | zero => simp
  | succ j ih =>
    have h1 := (monthOffset_bounds l (m + j) hl ⟨by omega, by omega⟩).2.1
    have h2 := ih (by omega)
    rw [show m + ((j + 1 : ℕ) : Int) = m + (j : Int) + 1 by push_cast; ring]
    generalize monthOffset l (m + (j : Int) + 1) = a at *
    generalize monthOffset l (m + (j : Int)) = b at *
    generalize monthOffset l m = c at *
    omega

theorem monthOfYearDay_spec (l d : Int) (hd : 0 ≤ d ∧ d < 365 + l) :
    monthOffset l (monthOfYearDay l d) ≤ d ∧ d < monthOffset l (monthOfYearDay l d + 1) := by
  obtain ⟨o0, o1, o2, o3, o4, o5, o6, o7, o8, o9, o10, o11, o12⟩ := monthOffset_lit l
  generalize hm : monthOfYearDay l d = m
  unfold monthOfYearDay at hm
  by_cases h0 : d < 31
  · rw [if_pos h0] at hm; subst hm; rw [show (0 : Int) + 1 = 1 from rfl, o0, o1]; clear o0 o1 o2 o3 o4 o5 o6 o7 o8 o9 o10 o11 o12; omega
  rw [if_neg h0] at hm
  by_cases h1 : d < 59 + l
  · rw [if_pos h1] at hm; subst hm; rw [show (1 : Int) + 1 = 2 from rfl, o1, o2]; clear o0 o1 o2 o3 o4 o5 o6 o7 o8 o9 o10 o11 o12; omega
  rw [if_neg h1] at hm
  by_cases h2 : d < 90 + l
  · rw [if_pos h2] at hm; subst hm; rw [show (2 : Int) + 1 = 3 from rfl, o2, o3]; clear o0 o1 o2 o3 o4 o5 o6 o7 o8 o9 o10 o11 o12; omega
  rw [if_neg h2] at hm
  by_cases h3 : d < 120 + l
  · rw [if_pos h3] at hm; subst hm; rw [show (3 : Int) + 1 = 4 from rfl, o3, o4]; clear o0 o1 o2 o3 o4 o5 o6 o7 o8 o9 o10 o11 o12; omega
  rw [if_neg h3] at hm
  by_cases h4 : d < 151 + l
  · rw [if_pos h4] at hm; subst hm; rw [show (4 : Int) + 1 = 5 from rfl, o4, o5]; clear o0 o1 o2 o3 o4 o5 o6 o7 o8 o9 o10 o11 o12; omega
  rw [if_neg h4] at hm
  by_cases h5 : d < 181 + l
  · rw [if_pos h5] at hm; subst hm; rw [show (5 : Int) + 1 = 6 from rfl, o5, o6]; clear o0 o1 o2 o3 o4 o5 o6 o7 o8 o9 o10 o11 o12; omega
  rw [if_neg h5] at hm
  by_cases h6 : d < 212 + l
  · rw [if_pos h6] at hm; subst hm; rw [show (6 : Int) + 1 = 7 from rfl, o6, o7]; clear o0 o1 o2 o3 o4 o5 o6 o7 o8 o9 o10 o11 o12; omega
  rw [if_neg h6] at hm
  by_cases h7 : d < 243 + l
  · rw [if_pos h7] at hm; subst hm; rw [show (7 : Int) + 1 = 8 from rfl, o7, o8]; clear o0 o1 o2 o3 o4 o5 o6 o7 o8 o9 o10 o11 o12; omega
  rw [if_neg h7] at hm
  by_cases h8 : d < 273 + l
  · rw [if_pos h8] at hm; subst hm; rw [show (8 : Int) + 1 = 9 from rfl, o8, o9]; clear o0 o1 o2 o3 o4 o5 o6 o7 o8 o9 o10 o11 o12; omega
  rw [if_neg h8] at hm
  by_cases h9 : d < 304 + l
  · rw [if_pos h9] at hm; subst hm; rw [show (9 : Int) + 1 = 10 from rfl, o9, o10]; clear o0 o1 o2 o3 o4 o5 o6 o7 o8 o9 o10 o11 o12; omega
  rw [if_neg h9] at hm
  by_cases h10 : d < 334 + l
  · rw [if_pos h10] at hm; subst hm; rw [show (10 : Int) + 1 = 11 from rfl, o10, o11]; clear o0 o1 o2 o3 o4 o5 o6 o7 o8 o9 o10 o11 o12; omega
  rw [if_neg h10] at hm
  subst hm; rw [show (11 : Int) + 1 = 12 from rfl, o11, o12]; clear o0 o1 o2 o3 o4 o5 o6 o7 o8 o9 o10 o11 o12; omega

theorem monthOfYearDay_iff (l d m : Int) (hl : l = 0 ∨ l = 1) (hd : 0 ≤ d ∧ d < 365 + l)
    (hm : 0 ≤ m ∧ m ≤ 11) :
    monthOfYearDay l d = m ↔ monthOffset l m ≤ d ∧ d < monthOffset l (m + 1) := by
  have hsp := monthOfYearDay_spec l d hd
  have hr := monthOfYearDay_range l d
  constructor
  · rintro rfl; exact hsp
  · rintro ⟨h1, h2⟩
    by_contra hne
    rcases lt_or_gt_of_ne hne with h | h
    · have := monthOffset_mono l (monthOfYearDay l d + 1) m hl (by omega) (by omega) (by omega)
      generalize monthOffset l (monthOfYearDay l d + 1) = a at *
      generalize monthOffset l m = b at *
      omega
    · have := monthOffset_mono l (m + 1) (monthOfYearDay l d) hl (by omega) (by omega) (by omega)
      generalize monthOffset l (monthOfYearDay l d) = a at *
      generalize monthOffset l (m + 1) = b at *
      omega

theorem MonthFromDay_range (n : Int) : 0 ≤ MonthFromDay n ∧ MonthFromDay n ≤ 11 :=
  monthOfYearDay_range _ _

theorem MakeDay_of_month (y m dt : Int) (hm : 0 ≤ m ∧ m ≤ 11) :
    MakeDay y m dt = DayFromYear y + monthOffset (InLeapYear y) m + dt - 1 := by
  have h1 : m / 12 = 0 := by omega
  have h2 : m % 12 = m := by omega
  simp [MakeDay, h1, h2]

theorem MakeDay_next_year (y dt : Int) :
    MakeDay y 12 dt = DayFromYear y + monthOffset (InLeapYear y) 12 + dt - 1 := by
  have hs := DayFromYear_succ y
  have hl := (DaysInYear_eq y).1
  have h12 := (monthOffset_lit (InLeapYear y)).2.2.2.2.2.2.2.2.2.2.2.2
  have h0 := (monthOffset_lit (InLeapYear (y + 1))).1
  have e1 : (12 : Int) / 12 = 1 := by decide
  have e2 : (12 : Int) % 12 = 0 := by decide
  unfold MakeDay
  simp only [e1, e2]
  rw [h0, h12, hs, hl]
  ring

theorem MakeDay_date (y m dt : Int) : MakeDay y m dt = MakeDay y m 1 + (dt - 1) := by
  unfold MakeDay; ring

theorem MakeDay_succ_month (y m dt : Int) (hm : 0 ≤ m ∧ m ≤ 11) :
    MakeDay y (m + 1) dt = DayFromYear y + monthOffset (InLeapYear y) (m + 1) + dt - 1 := by
  by_cases h : m = 11
  · subst h; exact MakeDay_next_year y dt
  · exact MakeDay_of_month y (m + 1) dt (by omega)

/-- A day number lies in month `m` of year `y` exactly when it is between the first day of that
month and the first day of the next. -/
theorem year_month_iff (n y m : Int) (hm : 0 ≤ m ∧ m ≤ 11) :
    (YearFromDay n = y ∧ MonthFromDay n = m) ↔ MakeDay y m 1 ≤ n ∧ n < MakeDay y (m + 1) 1 := by
  have hs := DayFromYear_succ y
  have hl := DaysInYear_eq y
  have hb := monthOffset_bounds (InLeapYear y) m hl.2 hm
  rw [MakeDay_of_month y m 1 hm, MakeDay_succ_month y m 1 hm]
  constructor
  · rintro ⟨hy, hM⟩
    have hsp := YearFromDay_spec n
    rw [hy] at hsp
    unfold MonthFromDay DayWithinYear at hM
    rw [hy] at hM
    rw [monthOfYearDay_iff _ _ _ hl.2 (by omega) hm] at hM
    generalize monthOffset (InLeapYear y) m = a at *
    generalize monthOffset (InLeapYear y) (m + 1) = b at *
    omega
  · rintro ⟨h1, h2⟩
    have hy : YearFromDay n = y := by
      apply YearFromDay_eq n y
      · generalize monthOffset (InLeapYear y) m = a at *
        generalize monthOffset (InLeapYear y) (m + 1) = b at *
        omega
      · generalize monthOffset (InLeapYear y) m = a at *
        generalize monthOffset (InLeapYear y) (m + 1) = b at *
        omega
    refine ⟨hy, ?_⟩
    unfold MonthFromDay DayWithinYear
    rw [hy, monthOfYearDay_iff _ _ _ hl.2 ?_ hm]
    · generalize monthOffset (InLeapYear y) m = a at *
      generalize monthOffset (InLeapYear y) (m + 1) = b at *
      omega
    · generalize monthOffset (InLeapYear y) m = a at *
      generalize monthOffset (InLeapYear y) (m + 1) = b at *
      omega

theorem MakeDay_roundtrip (n : Int) :
    MakeDay (YearFromDay n) (MonthFromDay n) (DateFromDay n) = n := by
  rw [MakeDay_of_month _ _ _ (MonthFromDay_range n)]
  unfold DateFromDay DayWithinYear
  ring

theorem DateFromDay_of_month (n y m : Int) (hy : YearFromDay n = y) (hm : MonthFromDay n = m) :
    DateFromDay n = n - MakeDay y m 1 + 1 := by
  have hr := MonthFromDay_range n
  rw [hm] at hr
  rw [MakeDay_of_month y m 1 hr]
  unfold DateFromDay DayWithinYear
  rw [hy, hm]
  ring

theorem Day_mul (n : Int) : Day (n * msPerDay) = n := by
  unfold Day msPerDay; omega

theorem Day_bounds (t : Int) : Day t * msPerDay ≤ t ∧ t < (Day t + 1) * msPerDay := by
  unfold Day msPerDay; omega

theorem TimeClip_eq_some (t : Int) (h : -8640000000000000 ≤ t ∧ t ≤ 8640000000000000) :
    TimeClip t = some t := by
  unfold TimeClip
  rw [if_neg (by omega)]

theorem TimeClip_some_iff (t u : Int) :
    TimeClip t = some u ↔ u = t ∧ -8640000000000000 ≤ t ∧ t ≤ 8640000000000000 := by
  unfold TimeClip
  split_ifs with h
  · constructor
    · intro h'; cases h'
    · rintro ⟨-, h1, h2⟩; omega
  · simp only [Option.some.injEq]
    constructor
    · rintro rfl; omega
    · rintro ⟨rfl, -⟩; rfl

/-! ## Strings and truthiness -/

theorem orElse_nil (a : Option Str) : orElse a [] = orEmpty a := by
  rcases a with _ | (_ | ⟨c, cs⟩) <;> rfl

theorem orElse_orEmpty (a : Option Str) : orElse a (orEmpty a) = orEmpty a := by
  rcases a with _ | (_ | ⟨c, cs⟩) <;> rfl

theorem orEmpty_eq_nil (a : Option Str) : orEmpty a = [] ↔ a = none ∨ a = some [] := by
  rcases a with _ | (_ | ⟨c, cs⟩) <;> simp [orEmpty]

theorem numLt_irrefl (a : Num) : numLt a a = false := by
  cases a <;> simp [numLt]

theorem parseDate_nil (H : Host) : parseDate H [] = none := by
  simp [parseDate]

/-! ## Normalisation -/

/-- What `normalizeEvent` returns, in terms of the three strings it tests and parses. -/
theorem normalizeEvent_eq (H : Host) (rnd : Str) (obj : RawRow) :
    normalizeEvent H rnd obj =
      if orEmpty (getField obj "event_name".data) = [] ∨
          orEmpty (getField obj "start_date".data) = [] then none
      else
        match parseDate H (orEmpty (getField obj "start_date".data)) with
        | none => none
        | some sd =>
          let ed := (parseDate H (orEmpty (getField obj "end_date".data))).getD sd
          some {
            id := if orEmpty (getField obj "#".data) = [] then rnd
              else orEmpty (getField obj "#".data)
            name := orEmpty (getField obj "event_name".data)
            startDate := sd
            endDate := ed
            city := orEmpty (getField obj "city".data)
            country := orEmpty (getField obj "country".data)
            type := normalizeType H (orEmpty (getField obj "type".data))
            notes := orEmpty (getField obj "notes".data)
            isMultiDay := numGt ed.time sd.time } := by
  unfold normalizeEvent
  generalize getField obj "event_name".data = fName
  generalize getField obj "start_date".data = fStart
  generalize getField obj "end_date".data = fEnd
  generalize getField obj "city".data = fCity
  generalize getField obj "country".data = fCountry
  generalize getField obj "type".data = fType
  generalize getField obj "notes".data = fNotes
  generalize getField obj "#".data = fNum
  simp only [orElse_nil, orElse_orEmpty]
  by_cases h : orEmpty fName = [] ∨ orEmpty fStart = []
  · rw [if_pos h, if_pos h]
  · rw [if_neg h, if_neg h]
    cases hs : parseDate H (orEmpty fStart) <;> cases he : parseDate H (orEmpty fEnd) <;> rfl

/-- The text `not-a-date` has no slash, so `parseDate` hands it to the host's date parser, and
returns null when that parser rejects it. -/
theorem parseDate_not_a_date (H : Host) (h : H.dateParse "not-a-date".data = none) :
    parseDate H "not-a-date".data = none := by
  simp [parseDate, split, newDateOfString, h]

/-- C1. `normalizeEvent` returns null exactly when the row's `event_name` is missing or empty, or
its `start_date` is missing or empty, or `parseDate` of its `start_date` is null; every event it
returns carries the row's `event_name` as its name. -/
theorem normalizeEvent_null_iff (H : Host) (rnd : Str) (obj : RawRow) :
    (normalizeEvent H rnd obj = none ↔
      ((getField obj "event_name".data = none ∨ getField obj "event_name".data = some []) ∨
        (getField obj "start_date".data = none ∨ getField obj "start_date".data = some []) ∨
        parseDate H (orEmpty (getField obj "start_date".data)) = none)) ∧
    (∀ ev, normalizeEvent H rnd obj = some ev →
      getField obj "event_name".data = some ev.name) := by
  rw [normalizeEvent_eq, ← orEmpty_eq_nil, ← orEmpty_eq_nil]
  generalize hn : getField obj "event_name".data = fName
  generalize getField obj "start_date".data = fStart
  generalize parseDate H (orEmpty (getField obj "end_date".data)) = pEnd
  by_cases h : orEmpty fName = [] ∨ orEmpty fStart = []
  · rw [if_pos h]
    refine ⟨⟨fun _ => ?_, fun _ => rfl⟩, fun ev h' => by cases h'⟩
    rcases h with h | h
    · exact Or.inl h
    · exact Or.inr (Or.inl h)
  · rw [if_neg h]
    push_neg at h
    cases hs : parseDate H (orEmpty fStart) with
    | none => exact ⟨⟨fun _ => Or.inr (Or.inr rfl), fun _ => rfl⟩, fun ev h' => by cases h'⟩
    | some sd =>
      refine ⟨⟨fun h' => (by cases h'), fun h' => ?_⟩, fun ev h' => ?_⟩
      · rcases h' with h' | h' | h'
        · exact absurd h' h.1
        · exact absurd h' h.2
        · cases h'
      · simp only [Option.some.injEq] at h'
        subst h'
        rcases fName with _ | s
        · exact absurd rfl h.1
        · rfl

/-! ## The delimited-line parser -/

/-- One step of the loop of `parseCSVLine`, with the look-ahead `line[i + 1]` read off the rest
of the line. -/
theorem parseCSVLineLoop_cons (c : Char) (rest : Str) (result : List Str) (current : Str)
    (inQuotes : Bool) :
    parseCSVLineLoop (c :: rest) result current inQuotes =
      if c = '"' then
        if inQuotes = true ∧ rest.head? = some '"' then
          parseCSVLineLoop rest.tail result (current ++ ['"']) inQuotes
        else parseCSVLineLoop rest result current (!inQuotes)
      else if c = ',' ∧ inQuotes = false then
        parseCSVLineLoop rest (result ++ [current]) [] inQuotes
      else parseCSVLineLoop rest result (current ++ [c]) inQuotes := by
  cases rest with
  | nil => simp [parseCSVLineLoop]
  | cons d rest => simp [parseCSVLineLoop]

/-- Inside quotes, the escaped text of a field followed by the closing quote appends the field
to `current` and leaves the quotes. -/
theorem parseCSVLineLoop_escaped (f rest : Str) (result : List Str) (current : Str)
    (hrest : rest.head? ≠ some '"') :
    parseCSVLineLoop ((f.flatMap fun c => if c = '"' then ['"', '"'] else [c]) ++ '"' :: rest)
        result current true =
      parseCSVLineLoop rest result (current ++ f) false := by
  induction f generalizing current with
  | nil =>
    simp only [List.flatMap_nil, List.nil_append, List.append_nil]
    rw [parseCSVLineLoop_cons]
    simp [hrest]
  | cons c f ih =>
    by_cases hc : c = '"'
    · subst hc
      simp only [List.flatMap_cons, if_true, List.cons_append, List.nil_append]
      rw [parseCSVLineLoop_cons]
      simp only [if_true, List.head?_cons, and_self, List.tail_cons]
      rw [ih]
      simp
    · simp only [List.flatMap_cons, if_neg hc, List.cons_append, List.nil_append]
      rw [parseCSVLineLoop_cons]
      simp only [if_neg hc]
      rw [if_neg (by simp), ih]
      simp

/-- Outside quotes, a quoted field appends the field to `current`. -/
theorem parseCSVLineLoop_quoteField (f rest : Str) (result : List Str) (current : Str)
    (hrest : rest.head? ≠ some '"') :
    parseCSVLineLoop (quoteField f ++ rest) result current false =
      parseCSVLineLoop rest result (current ++ f) false := by
  unfold quoteField
  simp only [List.cons_append, List.append_assoc, List.nil_append]
  rw [parseCSVLineLoop_cons]
  simp only [if_true, Bool.false_eq_true, false_and, if_false, Bool.not_false]
  exact parseCSVLineLoop_escaped f rest result current hrest

theorem parseCSVLineLoop_writeCSVLine (fields : List Str) (hne : fields ≠ []) (result : List Str)
    (current : Str) :
    parseCSVLineLoop (writeCSVLine fields) result current false =
      result ++ (current ++ fields.head hne) :: fields.tail := by
  induction fields generalizing result current with
  | nil => exact absurd rfl hne
  | cons f fs ih =>
    cases fs with
    | nil =>
      have := parseCSVLineLoop_quoteField f [] result current (by simp)
      simp only [List.append_nil] at this
      simp [writeCSVLine, joinWithCommas, this, parseCSVLineLoop]
    | cons g gs =>
      have h1 := parseCSVLineLoop_quoteField f
        (',' :: joinWithCommas ((g :: gs).map quoteField)) result current (by simp)
      have h2 := ih (by simp) (result ++ [current ++ f]) []
      simp only [writeCSVLine] at h2
      simp only [writeCSVLine, List.map_cons, joinWithCommas] at h1 ⊢
      rw [h1, parseCSVLineLoop_cons]
      simp only [List.map_cons] at h2
      simp [h2]

/-- C2. Round trip of the delimited-line parser: the line made of the fields of a non-empty
list, each written between double quotes with its double quotes doubled, joined with commas,
parses back to the same list of fields. -/
theorem parseCSVLine_writeCSVLine (fields : List Str) (hne : fields ≠ []) :
    parseCSVLine (writeCSVLine fields) = fields := by
  unfold parseCSVLine
  rw [parseCSVLineLoop_writeCSVLine fields hne]
  cases fields with
  | nil => exact absurd rfl hne
  | cons f fs => simp

/-- C2, worked example: the line `"Acme, Inc."` is the written form of the single field
`Acme, Inc.` and parses to that one field. -/
theorem parseCSVLine_writeCSVLine_witness :
    ["Acme, Inc.".data] ≠ [] ∧ writeCSVLine ["Acme, Inc.".data] = "\"Acme, Inc.\"".data ∧
      parseCSVLine (writeCSVLine ["Acme, Inc.".data]) = ["Acme, Inc.".data] :=
  ⟨by decide, by decide, parseCSVLine_writeCSVLine ["Acme, Inc.".data] (by decide)⟩

/-! ## Substring search -/

theorem includes_iff (s sub : Str) : includes s sub = true ↔ sub <:+: s := by
  induction s with
  | nil => cases sub <;> simp [includes]
  | cons c cs ih =>
    rw [includes, Bool.or_eq_true, ih, List.infix_cons_iff, List.isPrefixOf_iff_prefix]

theorem includes_nil (s : Str) : includes s [] = true :=
  (includes_iff s []).2 List.nil_infix

theorem sub_dropWhile_iff (p : Char → Bool) (s sub : Str) (hne : sub ≠ [])
    (hsub : ∀ c ∈ sub, p c = false) : sub <:+: s.dropWhile p ↔ sub <:+: s := by
  induction s with
  | nil => simp
  | cons c cs ih =>
    by_cases hc : p c = true
    · rw [List.dropWhile_cons_of_pos hc, ih, List.infix_cons_iff]
      constructor
      · exact Or.inr
      · rintro (h | h)
        · cases sub with
          | nil => exact absurd rfl hne
          | cons a as =>
            have ha : a = c := (List.cons_prefix_cons.1 h).1
            have := hsub a (List.mem_cons_self a as)
            rw [ha, hc] at this
            cases this
        · exact h
    · rw [List.dropWhile_cons_of_neg hc]

theorem includes_trim (s sub : Str) (hne : sub ≠ []) (hsub : ∀ c ∈ sub, isWhiteSpace c = false) :
    includes (trim s) sub = includes s sub := by
  rw [Bool.eq_iff_iff, includes_iff, includes_iff]
  unfold trim
  rw [← List.reverse_infix, List.reverse_reverse,
    sub_dropWhile_iff isWhiteSpace _ _ (by simpa using hne) (by simpa using hsub),
    List.reverse_infix, sub_dropWhile_iff isWhiteSpace _ _ hne hsub]

/-! ## Categories -/

/-- C9. `normalizeType` returns one of three categories, chosen by priority on the lower-cased
input: `rofintech` if it contains "rofintech", otherwise `finqware` if it contains "finqware",
otherwise `personal` if it contains "personal", otherwise the default `finqware`. -/
theorem normalizeType_priority (H : Host) (type : Str) :
    normalizeType H type =
      (if includes (H.toLowerCase type) "rofintech".data then "rofintech".data
      else if includes (H.toLowerCase type) "finqware".data then "finqware".data
      else if includes (H.toLowerCase type) "personal".data then "personal".data
      else "finqware".data) ∧
    (normalizeType H type = "rofintech".data ∨ normalizeType H type = "finqware".data ∨
      normalizeType H type = "personal".data) ∧
    normalizeType H [] = "finqware".data := by
  have key : ∀ t : Str, normalizeType H t =
      (if includes (H.toLowerCase t) "rofintech".data then "rofintech".data
      else if includes (H.toLowerCase t) "finqware".data then "finqware".data
      else if includes (H.toLowerCase t) "personal".data then "personal".data
      else "finqware".data) := by
    intro t
    unfold normalizeType
    simp only
    rw [includes_trim _ "rofintech".data (by decide) (by decide),
      includes_trim _ "finqware".data (by decide) (by decide),
      includes_trim _ "personal".data (by decide) (by decide)]
  refine ⟨key type, ?_, ?_⟩
  · rw [key]
    split_ifs
    · exact Or.inl rfl
    · exact Or.inr (Or.inl rfl)
    · exact Or.inr (Or.inr rfl)
    · exact Or.inr (Or.inl rfl)
  · rw [key, H.toLowerCase_nil]
    rfl

/-! ## The list view -/

/-- C5. The list-view filter keeps, in their original order, exactly the events for which all
three hold: the category is `all` or equals the event's type up to case; the search term is
empty or its lower-case form occurs in the lower-cased name, city or country; the country is
`all-countries` or equals the event's country. -/
theorem renderListView_eq_filter (H : Host) (events : List Event) (category term country : Str) :
    renderListView H events category term (some country) =
      events.filter fun e => decide (
        (category = "all".data ∨ H.toLowerCase e.type = H.toLowerCase category) ∧
        (term = [] ∨ includes (H.toLowerCase e.name) (H.toLowerCase term) = true ∨
          includes (H.toLowerCase e.city) (H.toLowerCase term) = true ∨
          includes (H.toLowerCase e.country) (H.toLowerCase term) = true) ∧
        (country = "all-countries".data ∨ e.country = country)) := by
  have hterm : term = [] → H.toLowerCase term = [] := fun h => h ▸ H.toLowerCase_nil
  unfold renderListView
  simp only
  by_cases hc : country = "all-countries".data
  · rw [if_neg (not_not.2 hc)]
    apply List.filter_congr
    intro e _
    by_cases h1 : category = "all".data <;>
    by_cases h2 : H.toLowerCase e.type = H.toLowerCase category <;>
    by_cases h3 : term = [] <;>
    by_cases h4 : H.toLowerCase term = [] <;>
    cases h5 : includes (H.toLowerCase e.name) (H.toLowerCase term) <;>
    cases h6 : includes (H.toLowerCase e.city) (H.toLowerCase term) <;>
    cases h7 : includes (H.toLowerCase e.country) (H.toLowerCase term) <;>
    simp_all [includes_nil]
  · rw [if_pos hc, List.filter_filter]
    apply List.filter_congr
    intro e _
    by_cases h0 : e.country = country <;>
    by_cases h1 : category = "all".data <;>
    by_cases h2 : H.toLowerCase e.type = H.toLowerCase category <;>
    by_cases h3 : term = [] <;>
    by_cases h4 : H.toLowerCase term = [] <;>
    cases h5 : includes (H.toLowerCase e.name) (H.toLowerCase term) <;>
    cases h6 : includes (H.toLowerCase e.city) (H.toLowerCase term) <;>
    cases h7 : includes (H.toLowerCase e.country) (H.toLowerCase term) <;>
    simp_all [includes_nil]

/-- The list view, worked example: with category `personal` and search term `conference`, the
events returned are the personal ones with "conference" in their name, city or country, whatever
its case, in their original order. -/
theorem renderListView_example :
    (renderListView asciiHost listViewEvents "personal".data "conference".data
        (some "all-countries".data)).map (fun ev => ev.name) =
      ["Rust Conference".data, "Hiking".data] ∧
    (renderListView asciiHost listViewEvents "personal".data "Conference".data
        (some "Romania".data)).map (fun ev => ev.name) =
      ["Rust Conference".data, "Hiking".data] ∧
    (renderListView asciiHost listViewEvents "all".data "conference".data
        (some "Austria".data)).map (fun ev => ev.name) = ["Fintech CONFERENCE".data] := by
  decide

/-- C8. For a row with a non-empty `event_name` and a `start_date` that `parseDate` accepts,
whose `end_date` is missing, empty or not accepted by `parseDate`, `normalizeEvent` returns an
event whose `endDate` is its `startDate` and whose `isMultiDay` is false. -/
theorem normalizeEvent_no_end (H : Host) (rnd : Str) (obj : RawRow) (name start : Str)
    (sd : JSDate) (hname : getField obj "event_name".data = some name) (hne : name ≠ [])
    (hstart : getField obj "start_date".data = some start) (hsd : parseDate H start = some sd)
    (hend : getField obj "end_date".data = none ∨ getField obj "end_date".data = some [] ∨
      ∃ e, getField obj "end_date".data = some e ∧ parseDate H e = none) :
    ∃ ev, normalizeEvent H rnd obj = some ev ∧ ev.name = name ∧ ev.startDate = sd ∧
      ev.endDate = ev.startDate ∧ ev.isMultiDay = false := by
  have hstart_ne : start ≠ [] := by
    rintro rfl
    rw [parseDate_nil] at hsd
    cases hsd
  have hpe : parseDate H (orEmpty (getField obj "end_date".data)) = none := by
    rcases hend with h | h | ⟨e, h, he⟩
    · rw [h]; exact parseDate_nil H
    · rw [h]; exact parseDate_nil H
    · rw [h]; exact he
  rw [normalizeEvent_eq, hpe, hname, hstart]
  simp only [orEmpty]
  rw [if_neg (by simp [hne, hstart_ne]), hsd]
  exact ⟨_, rfl, rfl, rfl, rfl, numLt_irrefl _⟩

/-- C8, worked example: a row with only a name and the start date `03/15/2026`. -/
theorem normalizeEvent_no_end_witness :
    ∃ ev, normalizeEvent asciiHost ['r']
        [("event_name".data, "Launch".data), ("start_date".data, "03/15/2026".data)] = some ev ∧
      ev.name = "Launch".data ∧ ev.startDate = civil 2026 3 15 ∧
      ev.endDate = ev.startDate ∧ ev.isMultiDay = false :=
  normalizeEvent_no_end asciiHost ['r']
    [("event_name".data, "Launch".data), ("start_date".data, "03/15/2026".data)]
    "Launch".data "03/15/2026".data (civil 2026 3 15) (by decide) (by decide) (by decide)
    (by decide) (Or.inl (by decide))

/-- C6, counterexample: a row whose `end_date` is two days before its `start_date` is returned as
an event whose `endDate` is before its `startDate`, and `parseCSV` returns that event for the
document made of that row. -/
theorem normalizeEvent_end_before_start :
    normalizeEvent asciiHost ['r'] rowEndBeforeStart = some eventEndBeforeStart ∧
      eventEndBeforeStart.startDate = civil 2026 3 17 ∧
      eventEndBeforeStart.endDate = civil 2026 3 15 ∧
      numGe eventEndBeforeStart.endDate.time eventEndBeforeStart.startDate.time = false ∧
      numLt eventEndBeforeStart.endDate.time eventEndBeforeStart.startDate.time = true ∧
      parseCSV asciiHost csvEndBeforeStart = [eventEndBeforeStart] :=
  ⟨by decide, by decide, by decide, by decide, by decide, by decide⟩

/-- C6, as amended. For a row on which `normalizeEvent` returns an event with a valid start
date: the event's `endDate` is what `parseDate` makes of the row's `end_date`, and the
`startDate` when that is null; so `endDate >= startDate` holds exactly when `parseDate` of the
`end_date` is null or a date not before the start date; and `isMultiDay` is `endDate > startDate`. -/
theorem normalizeEvent_endDate (H : Host) (rnd : Str) (obj : RawRow) (ev : Event) (s : Int)
    (hev : normalizeEvent H rnd obj = some ev) (hs : ev.startDate.time = some s) :
    ev.endDate = (parseDate H (orEmpty (getField obj "end_date".data))).getD ev.startDate ∧
    (numGe ev.endDate.time ev.startDate.time = true ↔
      (parseDate H (orEmpty (getField obj "end_date".data)) = none ∨
        ∃ d, parseDate H (orEmpty (getField obj "end_date".data)) = some d ∧
          numGe d.time ev.startDate.time = true)) ∧
    ev.isMultiDay = numGt ev.endDate.time ev.startDate.time := by
  rw [normalizeEvent_eq] at hev
  by_cases h : orEmpty (getField obj "event_name".data) = [] ∨
      orEmpty (getField obj "start_date".data) = []
  · rw [if_pos h] at hev; cases hev
  rw [if_neg h] at hev
  cases hp : parseDate H (orEmpty (getField obj "start_date".data)) with
  | none => rw [hp] at hev; cases hev
  | some sd =>
    rw [hp] at hev
    simp only [Option.some.injEq] at hev
    subst hev
    simp only at hs ⊢
    cases he : parseDate H (orEmpty (getField obj "end_date".data)) with
    | none => simp [numGe, numLe, hs]
    | some d => simp

/-- C6 as amended, worked example: the row of the counterexample, whose event keeps the end date
it was given. -/
theorem normalizeEvent_endDate_witness :
    normalizeEvent asciiHost ['r'] rowEndBeforeStart = some eventEndBeforeStart ∧
    eventEndBeforeStart.startDate.time = some (MakeDay 2026 2 17 * msPerDay) ∧
    parseDate asciiHost (orEmpty (getField rowEndBeforeStart "end_date".data)) =
      some (civil 2026 3 15) ∧
    eventEndBeforeStart.endDate =
      (parseDate asciiHost (orEmpty (getField rowEndBeforeStart "end_date".data))).getD
        eventEndBeforeStart.startDate :=
  ⟨by decide, by decide, by decide,
    (normalizeEvent_endDate asciiHost ['r'] rowEndBeforeStart eventEndBeforeStart
      (MakeDay 2026 2 17 * msPerDay) (by decide) (by decide)).1⟩

/-! ## Decimal numerals and `parseInt` -/

theorem isWhiteSpace_digit (c : Char) (h : 48 ≤ c.toNat ∧ c.toNat ≤ 57) :
    isWhiteSpace c = false := by
  unfold isWhiteSpace
  simp only [Bool.or_eq_false_iff, decide_eq_false_iff_not, Bool.and_eq_false_imp,
    decide_eq_true_eq]
  omega

theorem radixDigit_digit (c : Char) (h : 48 ≤ c.toNat ∧ c.toNat ≤ 57) :
    radixDigit 10 c = some (c.toNat - 48) := by
  unfold radixDigit digitValue
  simp only [h, and_self, if_true]
  rw [if_pos (by omega)]

theorem ne_of_toNat_ne (c d : Char) (h : c.toNat ≠ d.toNat) : c ≠ d := by
  rintro rfl; exact h rfl

theorem parseDigits_decimal (s : Str) (acc n : Nat) (h : decimalValueFrom acc s = some n) :
    parseDigits 10 s (some acc) = some n := by
  induction s generalizing acc with
  | nil => simpa [decimalValueFrom, parseDigits] using h
  | cons c cs ih =>
    unfold decimalValueFrom at h
    by_cases hc : 48 ≤ c.toNat ∧ c.toNat ≤ 57
    · rw [if_pos hc] at h
      unfold parseDigits
      rw [radixDigit_digit c hc]
      exact ih _ h
    · rw [if_neg hc] at h; cases h

theorem decimalValueFrom_digits (s : Str) (acc n : Nat) (h : decimalValueFrom acc s = some n) :
    ∀ c ∈ s, 48 ≤ c.toNat ∧ c.toNat ≤ 57 := by
  induction s generalizing acc with
  | nil => simp
  | cons c cs ih =>
    unfold decimalValueFrom at h
    by_cases hc : 48 ≤ c.toNat ∧ c.toNat ≤ 57
    · rw [if_pos hc] at h
      intro x hx
      rcases List.mem_cons.1 hx with rfl | hx
      · exact hc
      · exact ih _ h x hx
    · rw [if_neg hc] at h; cases h

theorem decimalValue_digits (s : Str) (n : Nat) (h : decimalValue s = some n) :
    s ≠ [] ∧ ∀ c ∈ s, 48 ≤ c.toNat ∧ c.toNat ≤ 57 := by
  cases s with
  | nil => cases h
  | cons c cs => exact ⟨by simp, decimalValueFrom_digits _ 0 n h⟩

/-- On a decimal numeral `parseInt` returns the number it denotes. -/
theorem parseInt_decimal (s : Str) (n : Nat) (h : decimalValue s = some n) :
    parseInt s = some (n : Int) := by
  cases s with
  | nil => cases h
  | cons c cs =>
    have hd := decimalValueFrom_digits _ 0 n h
    have hc := hd c (List.mem_cons_self c cs)
    have hws := isWhiteSpace_digit c hc
    have h1 : c ≠ '-' := ne_of_toNat_ne _ _ (by rw [show ('-' : Char).toNat = 45 from rfl]; omega)
    have h2 : c ≠ '+' := ne_of_toNat_ne _ _ (by rw [show ('+' : Char).toNat = 43 from rfl]; omega)
    have h3 : ∀ r, cs ≠ 'x' :: r := by
      rintro r rfl
      have := hd 'x' (by simp)
      rw [show ('x' : Char).toNat = 120 from rfl] at this
      omega
    have h4 : ∀ r, cs ≠ 'X' :: r := by
      rintro r rfl
      have := hd 'X' (by simp)
      rw [show ('X' : Char).toNat = 88 from rfl] at this
      omega
    have hp : parseDigits 10 (c :: cs) none = some n := by
      unfold decimalValue at h
      simp only at h
      unfold decimalValueFrom at h
      rw [if_pos hc] at h
      unfold parseDigits
      rw [radixDigit_digit c hc]
      exact parseDigits_decimal _ _ _ h
    have e1 : parseSign (c :: cs) = (1, c :: cs) := by
      unfold parseSign
      split
      · rename_i heq; exact absurd (List.cons.inj heq).1 h1
      · rename_i heq; exact absurd (List.cons.inj heq).1 h2
      · rfl
    have e2 : parseRadix (c :: cs) = (10, c :: cs) := by
      unfold parseRadix
      split
      · rename_i heq; exact absurd (List.cons.inj heq).2 (h3 _)
      · rename_i heq; exact absurd (List.cons.inj heq).2 (h4 _)
      · rfl
    unfold parseInt
    rw [List.dropWhile_cons_of_neg (by simp [hws])]
    simp only [e1, e2, hp, one_mul]

/-! ## Splitting -/

theorem split_of_not_mem (sep : Char) (a : Str) (h : sep ∉ a) : split sep a = [a] := by
  induction a with
  | nil => rfl
  | cons c cs ih =>
    have hc : c ≠ sep := fun e => h (e ▸ List.mem_cons_self c cs)
    have hcs : sep ∉ cs := fun e => h (List.mem_cons_of_mem c e)
    rw [split, if_neg hc, ih hcs]

theorem split_append_sep (sep : Char) (a rest : Str) (h : sep ∉ a) :
    split sep (a ++ sep :: rest) = a :: split sep rest := by
  induction a with
  | nil => simp [split]
  | cons c cs ih =>
    have hc : c ≠ sep := fun e => h (e ▸ List.mem_cons_self c cs)
    have hcs : sep ∉ cs := fun e => h (List.mem_cons_of_mem c e)
    rw [List.cons_append, split, if_neg hc, ih hcs]

theorem slash_not_mem_decimal (s : Str) (n : Nat) (h : decimalValue s = some n) : '/' ∉ s := by
  intro hmem
  have := (decimalValue_digits s n h).2 '/' hmem
  rw [show ('/' : Char).toNat = 47 from rfl] at this
  omega

/-! ## Dates built by the constructor -/

theorem InLeapYear_eq (y : Int) :
    InLeapYear y = if y % 4 = 0 ∧ (y % 100 ≠ 0 ∨ y % 400 = 0) then 1 else 0 := by
  unfold InLeapYear DaysInYear
  split_ifs <;> omega

theorem monthOffset_diff (y m : Int) (hm : 1 ≤ m ∧ m ≤ 12) :
    monthOffset (InLeapYear y) m = monthOffset (InLeapYear y) (m - 1) + daysInMonth y m := by
  have hl := InLeapYear_eq y
  generalize InLeapYear y = l at hl ⊢
  have : m = 1 ∨ m = 2 ∨ m = 3 ∨ m = 4 ∨ m = 5 ∨ m = 6 ∨ m = 7 ∨ m = 8 ∨ m = 9 ∨ m = 10 ∨
      m = 11 ∨ m = 12 := by omega
  obtain ⟨o0, o1, o2, o3, o4, o5, o6, o7, o8, o9, o10, o11, o12⟩ := monthOffset_lit l
  rcases this with h | h | h | h | h | h | h | h | h | h | h | h
  · subst h; rw [show (1 : Int) - 1 = 0 from rfl, o0, o1]; clear o0 o1 o2 o3 o4 o5 o6 o7 o8 o9 o10 o11 o12
    unfold daysInMonth; norm_num; try omega
  · subst h; rw [show (2 : Int) - 1 = 1 from rfl, o1, o2]; clear o0 o1 o2 o3 o4 o5 o6 o7 o8 o9 o10 o11 o12
    unfold daysInMonth; norm_num; split_ifs at hl ⊢ <;> omega
  · subst h; rw [show (3 : Int) - 1 = 2 from rfl, o2, o3]; clear o0 o1 o2 o3 o4 o5 o6 o7 o8 o9 o10 o11 o12
    unfold daysInMonth; norm_num; try omega
  · subst h; rw [show (4 : Int) - 1 = 3 from rfl, o3, o4]; clear o0 o1 o2 o3 o4 o5 o6 o7 o8 o9 o10 o11 o12
    unfold daysInMonth; norm_num; try omega
  · subst h; rw [show (5 : Int) - 1 = 4 from rfl, o4, o5]; clear o0 o1 o2 o3 o4 o5 o6 o7 o8 o9 o10 o11 o12
    unfold daysInMonth; norm_num; try omega
  · subst h; rw [show (6 : Int) - 1 = 5 from rfl, o5, o6]; clear o0 o1 o2 o3 o4 o5 o6 o7 o8 o9 o10 o11 o12
    unfold daysInMonth; norm_num; try omega
  · subst h; rw [show (7 : Int) - 1 = 6 from rfl, o6, o7]; clear o0 o1 o2 o3 o4 o5 o6 o7 o8 o9 o10 o11 o12
    unfold daysInMonth; norm_num; try omega
  · subst h; rw [show (8 : Int) - 1 = 7 from rfl, o7, o8]; clear o0 o1 o2 o3 o4 o5 o6 o7 o8 o9 o10 o11 o12
    unfold daysInMonth; norm_num; try omega
  · subst h; rw [show (9 : Int) - 1 = 8 from rfl, o8, o9]; clear o0 o1 o2 o3 o4 o5 o6 o7 o8 o9 o10 o11 o12
    unfold daysInMonth; norm_num; try omega
  · subst h; rw [show (10 : Int) - 1 = 9 from rfl, o9, o10]; clear o0 o1 o2 o3 o4 o5 o6 o7 o8 o9 o10 o11 o12
    unfold daysInMonth; norm_num; try omega
  · subst h; rw [show (11 : Int) - 1 = 10 from rfl, o10, o11]; clear o0 o1 o2 o3 o4 o5 o6 o7 o8 o9 o10 o11 o12
    unfold daysInMonth; norm_num; try omega
  · subst h; rw [show (12 : Int) - 1 = 11 from rfl, o11, o12]; clear o0 o1 o2 o3 o4 o5 o6 o7 o8 o9 o10 o11 o12
    unfold daysInMonth; norm_num; try omega

/-- Day `d` of month `m` (1 to 12) of year `y`, for a day that exists in that month, is a day of
that year and month, and its day of the month is `d`. -/
theorem MakeDay_fields (y m d : Int) (hm : 1 ≤ m ∧ m ≤ 12) (hd : 1 ≤ d ∧ d ≤ daysInMonth y m) :
    YearFromDay (MakeDay y (m - 1) d) = y ∧ MonthFromDay (MakeDay y (m - 1) d) = m - 1 ∧
      DateFromDay (MakeDay y (m - 1) d) = d := by
  have hmm : 0 ≤ m - 1 ∧ m - 1 ≤ 11 := by omega
  have hdiff := monthOffset_diff y m hm
  have h1 := MakeDay_of_month y (m - 1) 1 hmm
  have h2 := MakeDay_succ_month y (m - 1) 1 hmm
  rw [show m - 1 + 1 = m by ring] at h2
  have h3 := MakeDay_date y (m - 1) d
  have hym : YearFromDay (MakeDay y (m - 1) d) = y ∧ MonthFromDay (MakeDay y (m - 1) d) = m - 1 := by
    rw [year_month_iff _ _ _ hmm, show m - 1 + 1 = m by ring]
    generalize monthOffset (InLeapYear y) m = a at *
    generalize monthOffset (InLeapYear y) (m - 1) = b at *
    generalize MakeDay y (m - 1) d = n at *
    generalize MakeDay y (m - 1) 1 = n1 at *
    generalize MakeDay y m 1 = n2 at *
    generalize daysInMonth y m = k at *
    omega
  refine ⟨hym.1, hym.2, ?_⟩
  rw [DateFromDay_of_month _ y (m - 1) hym.1 hym.2, h3]
  ring

theorem MakeDay_range (y m d : Int) (hy : -200000 ≤ y ∧ y ≤ 200000) (hm : 0 ≤ m ∧ m ≤ 11)
    (hd : -1000 ≤ d ∧ d ≤ 1000) :
    -8640000000000000 ≤ MakeDay y m d * msPerDay ∧ MakeDay y m d * msPerDay ≤ 8640000000000000 := by
  have h1 := MakeDay_of_month y m d hm
  have h2 := monthOffset_bounds (InLeapYear y) m (DaysInYear_eq y).2 hm
  have h3 := DayFromYear_lower y
  have h4 := DayFromYear_upper y
  have h5 := (DaysInYear_eq y).2
  generalize monthOffset (InLeapYear y) m = a at *
  generalize monthOffset (InLeapYear y) (m + 1) = b at *
  generalize MakeDay y m d = n at *
  generalize DayFromYear y = f at *
  generalize InLeapYear y = l at *
  unfold msPerDay
  omega

theorem newDate_eq_civil (y m d : Int) (hy : 100 ≤ y ∧ y ≤ 200000) (hm : 1 ≤ m ∧ m ≤ 12)
    (hd : -1000 ≤ d ∧ d ≤ 1000) : newDate (some y) (some (m - 1)) (some d) = civil y m d := by
  unfold newDate civil
  simp only
  rw [if_neg (by omega), TimeClip_eq_some _ (MakeDay_range y (m - 1) d (by omega) (by omega) hd)]

theorem civil_fields (y m d : Int) (hm : 1 ≤ m ∧ m ≤ 12) (hd : 1 ≤ d ∧ d ≤ daysInMonth y m) :
    (civil y m d).getFullYear = some y ∧ (civil y m d).getMonth = some (m - 1) ∧
      (civil y m d).getDate = some d ∧
      (civil y m d).time = some (MakeDay y (m - 1) d * msPerDay) ∧
      MakeDay y (m - 1) d * msPerDay % msPerDay = 0 := by
  obtain ⟨h1, h2, h3⟩ := MakeDay_fields y m d hm hd
  simp only [JSDate.getFullYear, JSDate.getMonth, JSDate.getDate, civil, Option.map_some', Day_mul,
    h1, h2, h3, true_and]
  exact Int.mul_emod_left _ _

theorem daysInMonth_le (y m : Int) : 28 ≤ daysInMonth y m ∧ daysInMonth y m ≤ 31 := by
  unfold daysInMonth
  split_ifs <;> omega

/-- What `parseDate` returns on three decimal numerals separated by slashes. -/
theorem parseDate_slash (H : Host) (ms ds ys : Str) (m d y : Nat)
    (hm : decimalValue ms = some m) (hd : decimalValue ds = some d)
    (hy : decimalValue ys = some y) :
    parseDate H (ms ++ '/' :: (ds ++ '/' :: ys)) =
      some (newDate (some (y : Int)) (some ((m : Int) - 1)) (some (d : Int))) := by
  have hne : ms ++ '/' :: (ds ++ '/' :: ys) ≠ [] := by simp
  unfold parseDate
  rw [if_neg hne, split_append_sep _ _ _ (slash_not_mem_decimal ms m hm),
    split_append_sep _ _ _ (slash_not_mem_decimal ds d hd),
    split_of_not_mem _ _ (slash_not_mem_decimal ys y hy)]
  simp only [parseInt_decimal ms m hm, parseInt_decimal ds d hd, parseInt_decimal ys y hy, numSub]
  rw [if_pos (by simp)]

/-- C10. For a four-digit year `y`, a month `m` from 1 to 12 and a day `d` that exists in that
month, `parseDate` of the decimal numerals of `m`, `d` and `y` (leading zeros allowed) separated
by slashes returns a date, not null, whose year is `y`, whose month is `m` (`getMonth()` counts
from zero and gives `m - 1`), whose day of the month is `d`, and whose time of day is zero. -/
theorem parseDate_month_day_year (H : Host) (ms ds ys : Str) (m d y : Nat)
    (hm : decimalValue ms = some m) (hd : decimalValue ds = some d)
    (hy : decimalValue ys = some y) (hy4 : 1000 ≤ y ∧ y ≤ 9999) (hm12 : 1 ≤ m ∧ m ≤ 12)
    (hdm : 1 ≤ d ∧ (d : Int) ≤ daysInMonth y m) :
    ∃ date t, parseDate H (ms ++ '/' :: (ds ++ '/' :: ys)) = some date ∧ date.time = some t ∧
      t % msPerDay = 0 ∧ date.getFullYear = some (y : Int) ∧
      date.getMonth = some ((m : Int) - 1) ∧ date.getDate = some (d : Int) := by
  have hdl := daysInMonth_le y m
  have hmi : (1 : Int) ≤ m ∧ (m : Int) ≤ 12 := by omega
  have hdi : (1 : Int) ≤ d ∧ (d : Int) ≤ daysInMonth y m := ⟨by omega, hdm.2⟩
  obtain ⟨f1, f2, f3, f4, f5⟩ := civil_fields y m d hmi hdi
  refine ⟨civil y m d, _, ?_, f4, f5, f1, f2, f3⟩
  rw [parseDate_slash H ms ds ys m d y hm hd hy,
    newDate_eq_civil y m d (by omega) hmi (by omega)]

/-- C10, worked example: `03/15/2026` and `3/15/2026` both parse to 15 March 2026 at midnight. -/
theorem parseDate_month_day_year_witness :
    (decimalValue "03".data = some 3 ∧ decimalValue "15".data = some 15 ∧
      decimalValue "2026".data = some 2026 ∧ (15 : Int) ≤ daysInMonth 2026 3) ∧
    (∃ date t, parseDate asciiHost "03/15/2026".data = some date ∧ date.time = some t ∧
      t % msPerDay = 0 ∧ date.getFullYear = some 2026 ∧ date.getMonth = some (3 - 1) ∧
      date.getDate = some 15) ∧
    parseDate asciiHost "3/15/2026".data = parseDate asciiHost "03/15/2026".data :=
  ⟨⟨by decide, by decide, by decide, by decide⟩,
    parseDate_month_day_year asciiHost "03".data "15".data "2026".data 3 15 2026
      (by decide) (by decide) (by decide) (by decide) (by decide) ⟨by decide, by decide⟩,
    by decide⟩

/-! ## Month queries -/

theorem numLe_some (a b : Int) : numLe (some a) (some b) = true ↔ a ≤ b := by
  simp [numLe]

theorem numEq_some (a b : Int) : numEq (some a) (some b) = true ↔ a = b := by
  simp [numEq]

theorem newDate_of_year (y m d : Int) (hy : ¬(0 ≤ y ∧ y ≤ 99)) :
    newDate (some y) (some m) (some d) = ⟨TimeClip (MakeDay y m d * msPerDay)⟩ := by
  unfold newDate
  simp only
  rw [if_neg hy]

/-- An event whose start and end days enclose a day of month `month` of year `year`, a year
outside 0..99, passes the filter of `getEventsForMonth`. -/
theorem eventInMonth_of_overlap (ev : Event) (month year s t n : Int)
    (hs : ev.startDate.time = some s) (ht : ev.endDate.time = some t)
    (hsr : -100000000 ≤ Day s) (htr : Day t ≤ 100000000)
    (hy : ¬(0 ≤ year ∧ year ≤ 99))
    (hn : YearFromDay n = year ∧ MonthFromDay n = month)
    (hb : Day s ≤ n ∧ n ≤ Day t) : eventInMonth month year ev = true := by
  have hm : 0 ≤ month ∧ month ≤ 11 := hn.2 ▸ MonthFromDay_range n
  have hF := (year_month_iff n year month hm).1 hn
  have hds := Day_bounds s
  have hdt := Day_bounds t
  unfold eventInMonth
  simp only [JSDate.getFullYear, JSDate.getMonth, hs, ht, Option.map_some', Bool.or_eq_true,
    Bool.and_eq_true, numEq_some, numGe]
  by_cases hA : MakeDay year month 1 ≤ Day s
  · exact Or.inl (Or.inl ((year_month_iff (Day s) year month hm).2 ⟨hA, by omega⟩))
  by_cases hB : Day t < MakeDay year (month + 1) 1
  · exact Or.inl (Or.inr ((year_month_iff (Day t) year month hm).2 ⟨by omega, hB⟩))
  refine Or.inr ?_
  have hL := MakeDay_date year (month + 1) 0
  rw [newDate_of_year _ _ _ hy, newDate_of_year _ _ _ hy]
  generalize MakeDay year month 1 = F at *
  generalize MakeDay year (month + 1) 1 = L1 at *
  generalize MakeDay year (month + 1) 0 = L at *
  generalize Day s = ds at *
  generalize Day t = dt at *
  unfold msPerDay at *
  rw [TimeClip_eq_some _ (by omega), TimeClip_eq_some _ (by omega), numLe_some, numLe_some]
  omega

theorem Day_of_TimeClip (t : Int) (h : TimeClip t = some t) :
    -100000000 ≤ Day t ∧ Day t ≤ 100000000 := by
  have := (TimeClip_some_iff t t).1 h
  unfold Day msPerDay
  omega

/-- C3, counterexample: in March of year 50 every day lies between the start and the end of an
event that runs from December of year 49 to January of year 51, both valid dates, and
`getEventsForMonth(2, 50)` does not return the event, because `new Date(50, ...)` is a date of
1950. -/
theorem getEventsForMonth_year50 :
    eventAcrossYear50.startDate.time = some (MakeDay 49 11 1 * msPerDay) ∧
    eventAcrossYear50.endDate.time = some (MakeDay 51 0 31 * msPerDay) ∧
    TimeClip (MakeDay 49 11 1 * msPerDay) = some (MakeDay 49 11 1 * msPerDay) ∧
    TimeClip (MakeDay 51 0 31 * msPerDay) = some (MakeDay 51 0 31 * msPerDay) ∧
    MakeDay 49 11 1 * msPerDay ≤ MakeDay 51 0 31 * msPerDay ∧
    (YearFromDay (MakeDay 50 2 15) = 50 ∧ MonthFromDay (MakeDay 50 2 15) = 2) ∧
    (Day (MakeDay 49 11 1 * msPerDay) ≤ MakeDay 50 2 15 ∧
      MakeDay 50 2 15 ≤ Day (MakeDay 51 0 31 * msPerDay)) ∧
    eventAcrossYear50 ∉ getEventsForMonth [eventAcrossYear50] 2 50 ∧
    newDate (some 50) (some 2) (some 1) = civil 1950 3 1 ∧
    newDate (some 50) (some (2 + 1)) (some 0) = civil 1950 3 31 := by
  decide

/-- C3, as amended. For an event with valid dates whose start is not after its end, and a month
of a year outside 0..99 of which at least one calendar day `n` lies between the event's start
day and end day inclusive, `getEventsForMonth(month, year)` contains the event. -/
theorem getEventsForMonth_contains (events : List Event) (ev : Event) (month year s t n : Int)
    (hmem : ev ∈ events) (hs : ev.startDate.time = some s) (ht : ev.endDate.time = some t)
    (hsv : TimeClip s = some s) (htv : TimeClip t = some t) (_hle : s ≤ t)
    (hy : ¬(0 ≤ year ∧ year ≤ 99))
    (hn : YearFromDay n = year ∧ MonthFromDay n = month)
    (hb : Day s ≤ n ∧ n ≤ Day t) : ev ∈ getEventsForMonth events month year :=
  List.mem_filter.2 ⟨hmem, eventInMonth_of_overlap ev month year s t n hs ht
    (Day_of_TimeClip s hsv).1 (Day_of_TimeClip t htv).2 hy hn hb⟩

/-- C3 as amended, worked examples: for month index 2 (March) of 2026, an event from 02/28/2026
to 03/02/2026 and an event from 03/30/2026 to 04/02/2026 are both returned. -/
theorem getEventsForMonth_contains_witness :
    eventFebToMar ∈ getEventsForMonth [eventFebToMar, eventMarToApr] 2 2026 ∧
    getEventsForMonth [eventFebToMar, eventMarToApr] 2 2026 = [eventFebToMar, eventMarToApr] :=
  ⟨getEventsForMonth_contains [eventFebToMar, eventMarToApr] eventFebToMar 2 2026
    (MakeDay 2026 1 28 * msPerDay) (MakeDay 2026 2 2 * msPerDay) (MakeDay 2026 2 1)
    (by decide) (by decide) (by decide) (by decide) (by decide) (by decide) (by decide)
    (by decide) (by decide), by decide⟩

/-! ## Day queries -/

theorem DateFromDay_pos (n : Int) : 1 ≤ DateFromDay n := by
  have hsp := YearFromDay_spec n
  have hs := DayFromYear_succ (YearFromDay n)
  have hl := DaysInYear_eq (YearFromDay n)
  have := (monthOfYearDay_spec (InLeapYear (YearFromDay n)) (DayWithinYear n)
    (by unfold DayWithinYear; omega)).1
  unfold DateFromDay MonthFromDay
  generalize monthOffset (InLeapYear (YearFromDay n))
    (monthOfYearDay (InLeapYear (YearFromDay n)) (DayWithinYear n)) = a at *
  omega

/-- The time value of a date with its time of day removed, when the date is valid and its year
is outside 0..99: midnight of the same day. -/
theorem startOfDay_of_year (d : JSDate) (t : Int) (ht : d.time = some t)
    (hy : ¬(0 ≤ YearFromDay (Day t) ∧ YearFromDay (Day t) ≤ 99)) :
    (startOfDay d).time = TimeClip (Day t * msPerDay) := by
  unfold startOfDay
  simp only [JSDate.getFullYear, JSDate.getMonth, JSDate.getDate, ht, Option.map_some']
  rw [newDate_of_year _ _ _ hy, MakeDay_roundtrip]

/-- The time value of a date with its time of day removed, when the date is valid and its year
is in 0..99: midnight of a day of the twentieth century. -/
theorem startOfDay_two_digit (d : JSDate) (t x : Int) (ht : d.time = some t)
    (hy : 0 ≤ YearFromDay (Day t) ∧ YearFromDay (Day t) ≤ 99)
    (hx : (startOfDay d).time = some x) : DayFromYear 1900 * msPerDay ≤ x := by
  unfold startOfDay at hx
  simp only [JSDate.getFullYear, JSDate.getMonth, JSDate.getDate, ht, Option.map_some',
    newDate] at hx
  rw [if_pos hy, MakeDay_of_month _ _ _ (MonthFromDay_range _), TimeClip_some_iff] at hx
  have h1 := DateFromDay_pos (Day t)
  have h2 := (monthOffset_bounds (InLeapYear (1900 + YearFromDay (Day t))) (MonthFromDay (Day t))
    (DaysInYear_eq _).2 (MonthFromDay_range _)).1
  have h3 : DayFromYear 1900 ≤ DayFromYear (1900 + YearFromDay (Day t)) :=
    DayFromYear_mono (by omega)
  generalize monthOffset (InLeapYear (1900 + YearFromDay (Day t))) (MonthFromDay (Day t)) = a at *
  generalize DayFromYear (1900 + YearFromDay (Day t)) = b at *
  generalize DayFromYear 1900 = c at *
  generalize DateFromDay (Day t) = e at *
  unfold msPerDay at *
  omega

theorem startOfDay_time_some (d : JSDate) (x : Int) (hx : (startOfDay d).time = some x) :
    ∃ t, d.time = some t := by
  cases h : d.time with
  | none =>
    unfold startOfDay at hx
    simp [JSDate.getFullYear, h, newDate] at hx
  | some t => exact ⟨t, rfl⟩

theorem numLe_eq_true (a b : Num) (h : numLe a b = true) :
    ∃ x y, a = some x ∧ b = some y ∧ x ≤ y := by
  rcases a with _ | x <;> rcases b with _ | y <;> simp [numLe] at h
  exact ⟨x, y, rfl, rfl, h⟩

/-- An event that covers a day of month `month` of year `year` passes the filter of
`getEventsForMonth`, when the year and the year of the event's end are outside 0..99. -/
theorem eventInMonth_of_eventOnDate (ev : Event) (d : JSDate) (month year : Int)
    (hy : ¬(0 ≤ year ∧ year ≤ 99))
    (hend : ∀ y, ev.endDate.getFullYear = some y → ¬(0 ≤ y ∧ y ≤ 99))
    (hd : d.getFullYear = some year ∧ d.getMonth = some month)
    (hon : eventOnDate (startOfDay d) ev = true) : eventInMonth month year ev = true := by
  unfold eventOnDate at hon
  simp only [Bool.and_eq_true, numGe] at hon
  obtain ⟨a, x, ha, hx, hax⟩ := numLe_eq_true _ _ hon.1
  obtain ⟨x', b, hx', hb, hxb⟩ := numLe_eq_true _ _ hon.2
  rw [hx] at hx'
  cases hx'
  obtain ⟨td, htd⟩ := startOfDay_time_some d x hx
  obtain ⟨s, hs⟩ := startOfDay_time_some _ a ha
  obtain ⟨t, ht⟩ := startOfDay_time_some _ b hb
  simp only [JSDate.getFullYear, JSDate.getMonth, htd, Option.map_some', Option.some.injEq] at hd
  have hyt : ¬(0 ≤ YearFromDay (Day t) ∧ YearFromDay (Day t) ≤ 99) :=
    hend _ (by simp [JSDate.getFullYear, ht])
  have hx2 := startOfDay_of_year d td htd (by rw [hd.1]; exact hy)
  rw [hx, eq_comm, TimeClip_some_iff] at hx2
  have hb2 := startOfDay_of_year _ t ht hyt
  rw [hb, eq_comm, TimeClip_some_iff] at hb2
  have hdt : Day td ≤ Day t ∧ Day t ≤ 100000000 := by
    unfold msPerDay at *
    omega
  have hds : Day s ≤ Day td ∧ -100000000 ≤ Day s := by
    by_cases hys : 0 ≤ YearFromDay (Day s) ∧ YearFromDay (Day s) ≤ 99
    · have h1 := startOfDay_two_digit _ s a hs hys ha
      have h2 := (YearFromDay_spec (Day s))
      have h3 : DayFromYear (YearFromDay (Day s) + 1) ≤ DayFromYear 100 :=
        DayFromYear_mono (by omega)
      have h4 : DayFromYear 0 ≤ DayFromYear (YearFromDay (Day s)) := DayFromYear_mono (by omega)
      have e0 : DayFromYear 0 = -719528 := by decide
      have e1 : DayFromYear 100 = -683003 := by decide
      have e2 : DayFromYear 1900 = -25567 := by decide
      rw [e0] at h4
      rw [e1] at h3
      rw [e2] at h1
      generalize DayFromYear (YearFromDay (Day s) + 1) = u at *
      generalize DayFromYear (YearFromDay (Day s)) = v at *
      unfold msPerDay at *
      omega
    · have ha2 := startOfDay_of_year _ s hs hys
      rw [ha, eq_comm, TimeClip_some_iff] at ha2
      unfold msPerDay at *
      omega
  exact eventInMonth_of_overlap ev month year s t (Day td) hs ht hds.2 hdt.2 hy hd ⟨hds.1, hdt.1⟩

/-- C4, counterexamples. (1) For 31 March of year 50, a date that `getEventsForDate` reads as
31 March 1950, the event of that morning in 1950 is found in the full list and not in the events
of `getEventsForMonth(2, 50)`. (2) For 15 March 1950 the event running from year 40 to year 60
is found in the full list, because `getEventsForDate` reads its years as 1940 and 1960, and not
in the events of `getEventsForMonth(2, 1950)`. -/
theorem getEventsForDate_two_digit_years :
    ((civil 50 3 31).getFullYear = some 50 ∧ (civil 50 3 31).getMonth = some 2 ∧
      eventMorning1950.endDate.getFullYear = some 1950 ∧
      getEventsForDate [eventMorning1950] (civil 50 3 31)
        (some (getEventsForMonth [eventMorning1950] 2 50)) = [] ∧
      getEventsForDate [eventMorning1950] (civil 50 3 31) none = [eventMorning1950]) ∧
    ((civil 1950 3 15).getFullYear = some 1950 ∧ (civil 1950 3 15).getMonth = some 2 ∧
      eventYears40To60.endDate.getFullYear = some 60 ∧
      getEventsForDate [eventYears40To60] (civil 1950 3 15)
        (some (getEventsForMonth [eventYears40To60] 2 1950)) = [] ∧
      getEventsForDate [eventYears40To60] (civil 1950 3 15) none = [eventYears40To60]) := by
  decide

/-- C4, as amended. When the year asked for is outside 0..99 and no event ends in a year from 0
to 99, passing the month's events as the candidate set does not change the answer: for every
date `d` that lies in the month, `getEventsForDate(d, getEventsForMonth(month, year))` equals
`getEventsForDate(d)` over the full list. -/
theorem getEventsForDate_monthEvents (events : List Event) (month year : Int) (d : JSDate)
    (hy : ¬(0 ≤ year ∧ year ≤ 99))
    (hend : ∀ ev ∈ events, ∀ y, ev.endDate.getFullYear = some y → ¬(0 ≤ y ∧ y ≤ 99))
    (hd : d.getFullYear = some year ∧ d.getMonth = some month) :
    getEventsForDate events d (some (getEventsForMonth events month year)) =
      getEventsForDate events d none := by
  unfold getEventsForDate getEventsForMonth
  simp only [Option.getD_some, Option.getD_none, List.filter_filter]
  apply List.filter_congr
  intro ev hev
  cases hon : eventOnDate (startOfDay d) ev with
  | false => rfl
  | true =>
    rw [eventInMonth_of_eventOnDate ev d month year hy (hend ev hev) hd hon]
    rfl

/-- C4 as amended, worked example: on 1 March 2026 the event from 02/28/2026 to 03/02/2026 is
found either way. -/
theorem getEventsForDate_monthEvents_witness :
    ((civil 2026 3 1).getFullYear = some 2026 ∧ (civil 2026 3 1).getMonth = some 2) ∧
    getEventsForDate [eventFebToMar, eventMarToApr] (civil 2026 3 1)
        (some (getEventsForMonth [eventFebToMar, eventMarToApr] 2 2026)) =
      getEventsForDate [eventFebToMar, eventMarToApr] (civil 2026 3 1) none ∧
    getEventsForDate [eventFebToMar, eventMarToApr] (civil 2026 3 1) none = [eventFebToMar] :=
  ⟨by decide,
    getEventsForDate_monthEvents [eventFebToMar, eventMarToApr] 2 2026 (civil 2026 3 1)
      (by decide)
      (by
        intro ev hev y hy
        have h1 : eventFebToMar.endDate.getFullYear = some 2026 := by decide
        have h2 : eventMarToApr.endDate.getFullYear = some 2026 := by decide
        simp only [List.mem_cons, List.mem_singleton, List.not_mem_nil, or_false] at hev
        rcases hev with rfl | rfl
        · rw [h1] at hy; cases hy; decide
        · rw [h2] at hy; cases hy; decide)
      (by decide),
    by decide⟩

/-! ## Sorting -/

theorem mem_sortInsert (x y : Event) (l : List Event) :
    y ∈ sortInsert x l ↔ y = x ∨ y ∈ l := by
  induction l with
  | nil => simp [sortInsert]
  | cons z zs ih =>
    unfold sortInsert
    split_ifs
    · simp only [List.mem_cons, ih]
      tauto
    · simp only [List.mem_cons]

theorem mem_sortByStart (y : Event) (l : List Event) : y ∈ sortByStart l ↔ y ∈ l := by
  induction l with
  | nil => simp [sortByStart]
  | cons x xs ih => simp only [sortByStart, mem_sortInsert, ih, List.mem_cons]

theorem isSortedByStart_cons (a : Event) (l : List Event) :
    isSortedByStart (a :: l) = true ↔
      (∀ b ∈ l.head?, numLe a.startDate.time b.startDate.time = true) ∧
        isSortedByStart l = true := by
  cases l with
  | nil => simp [isSortedByStart]
  | cons b rest => simp [isSortedByStart]

theorem head?_sortInsert (x : Event) (l : List Event) :
    ∀ b ∈ (sortInsert x l).head?, b = x ∨ b ∈ l.head? := by
  cases l with
  | nil => simp [sortInsert]
  | cons z zs =>
    unfold sortInsert
    split_ifs <;> simp

theorem isSortedByStart_sortInsert (x : Event) (l : List Event)
    (hx : x.startDate.time ≠ none) (hl : ∀ e ∈ l, e.startDate.time ≠ none)
    (hs : isSortedByStart l = true) : isSortedByStart (sortInsert x l) = true := by
  induction l with
  | nil => rfl
  | cons z zs ih =>
    obtain ⟨tx, htx⟩ := Option.ne_none_iff_exists'.1 hx
    obtain ⟨tz, htz⟩ := Option.ne_none_iff_exists'.1 (hl z (List.mem_cons_self z zs))
    rw [isSortedByStart_cons] at hs
    unfold sortInsert
    by_cases hc : sortsAfter x z = true
    · rw [if_pos hc, isSortedByStart_cons]
      refine ⟨?_, ih (fun e he => hl e (List.mem_cons_of_mem z he)) hs.2⟩
      intro b hb
      rcases head?_sortInsert x zs b hb with rfl | hb
      · simp only [sortsAfter, compareStart, numSub, htx, htz, decide_eq_true_eq] at hc
        rw [htx, htz, numLe_some]
        omega
      · exact hs.1 b hb
    · rw [if_neg hc, isSortedByStart_cons]
      refine ⟨?_, (isSortedByStart_cons z zs).2 hs⟩
      simp only [sortsAfter, compareStart, numSub, htx, htz, decide_eq_true_eq] at hc
      simp only [List.head?_cons, Option.mem_def, Option.some.injEq, forall_eq', htx, htz,
        numLe_some]
      omega

/-- A list of events with valid start dates comes out of the sort sorted ascending by start
date. -/
theorem isSortedByStart_sortByStart (l : List Event) (hl : ∀ e ∈ l, e.startDate.time ≠ none) :
    isSortedByStart (sortByStart l) = true := by
  induction l with
  | nil => rfl
  | cons x xs ih =>
    unfold sortByStart
    exact isSortedByStart_sortInsert x _ (hl x (List.mem_cons_self x xs))
      (fun e he => hl e (List.mem_cons_of_mem x ((mem_sortByStart e xs).1 he)))
      (ih fun e he => hl e (List.mem_cons_of_mem x he))

/-- When every event that `parseCSV` loads has a valid start date, the list it returns is sorted
ascending by start date. -/
theorem parseCSV_sorted_of_valid (H : Host) (csv : Str)
    (hvalid : ∀ ev ∈ parseCSV H csv, ev.startDate.time ≠ none) :
    isSortedByStart (parseCSV H csv) = true := by
  unfold parseCSV at hvalid ⊢
  split
  · rename_i header l ls heq
    rw [heq] at hvalid
    simp only at hvalid
    exact isSortedByStart_sortByStart _ fun e he => hvalid e ((mem_sortByStart e _).2 he)
  · rfl

/-- C7, at the failing input: a document whose first row has the start date `1/1/300000` loads
that row as an event with an Invalid Date, and the list `parseCSV` returns is not sorted
ascending by start date; nor would it be with its two events the other way round. -/
theorem parseCSV_not_sorted :
    parseDate asciiHost "1/1/300000".data = some ⟨none⟩ ∧
    (parseCSV asciiHost csvYearOutOfRange).map (fun ev => (ev.name, ev.startDate)) =
      [("Far".data, ⟨none⟩), ("Near".data, civil 2026 1 1)] ∧
    isSortedByStart (parseCSV asciiHost csvYearOutOfRange) = false ∧
    isSortedByStart (parseCSV asciiHost csvYearOutOfRange).reverse = false := by
  decide

/-! ## Multi-day events and their duration -/

/-- The day numbers of two valid calendar dates are ordered as the dates are. -/
theorem MakeDay_lt_of_civilBefore (y1 m1 d1 y2 m2 d2 : Int)
    (hm1 : 1 ≤ m1 ∧ m1 ≤ 12) (hd1 : 1 ≤ d1 ∧ d1 ≤ daysInMonth y1 m1)
    (hm2 : 1 ≤ m2 ∧ m2 ≤ 12) (hd2 : 1 ≤ d2 ∧ d2 ≤ daysInMonth y2 m2)
    (h : civilBefore y1 m1 d1 y2 m2 d2) :
    MakeDay y1 (m1 - 1) d1 < MakeDay y2 (m2 - 1) d2 := by
  obtain ⟨a1, a2, -⟩ := MakeDay_fields y1 m1 d1 hm1 hd1
  obtain ⟨b1, b2, -⟩ := MakeDay_fields y2 m2 d2 hm2 hd2
  have hA := (year_month_iff _ y1 (m1 - 1) (by omega)).1 ⟨a1, a2⟩
  have hB := (year_month_iff _ y2 (m2 - 1) (by omega)).1 ⟨b1, b2⟩
  rcases h with h | ⟨rfl, h | ⟨rfl, h⟩⟩
  · have s1 := YearFromDay_spec (MakeDay y1 (m1 - 1) d1)
    have s2 := YearFromDay_spec (MakeDay y2 (m2 - 1) d2)
    rw [a1] at s1
    rw [b1] at s2
    have hmono : DayFromYear (y1 + 1) ≤ DayFromYear y2 := DayFromYear_mono (by omega)
    generalize MakeDay y1 (m1 - 1) d1 = n1 at *
    generalize MakeDay y2 (m2 - 1) d2 = n2 at *
    generalize DayFromYear (y1 + 1) = u at *
    generalize DayFromYear y2 = v at *
    omega
  · have e1 := MakeDay_succ_month y1 (m1 - 1) 1 (by omega)
    have e2 := MakeDay_of_month y1 (m2 - 1) 1 (by omega)
    have hmono := monthOffset_mono (InLeapYear y1) (m1 - 1 + 1) (m2 - 1) (DaysInYear_eq y1).2
      (by omega) (by omega) (by omega)
    generalize MakeDay y1 (m1 - 1) d1 = n1 at *
    generalize MakeDay y1 (m2 - 1) d2 = n2 at *
    generalize MakeDay y1 (m1 - 1 + 1) 1 = p at *
    generalize MakeDay y1 (m2 - 1) 1 = q at *
    generalize MakeDay y1 (m2 - 1 + 1) 1 = q' at *
    generalize MakeDay y1 (m1 - 1) 1 = p' at *
    generalize monthOffset (InLeapYear y1) (m1 - 1 + 1) = o1 at *
    generalize monthOffset (InLeapYear y1) (m2 - 1) = o2 at *
    generalize DayFromYear y1 = f at *
    omega
  · rw [MakeDay_date y1 (m1 - 1) d1, MakeDay_date y1 (m1 - 1) d2]
    omega

/-- The event `normalizeEvent` makes of a row with a name and with start and end dates written
as month, day and year numerals. -/
theorem normalizeEvent_slash (H : Host) (rnd : Str) (obj : RawRow) (name : Str)
    (ms ds ys me de ye : Str) (m1 d1 y1 m2 d2 y2 : Nat)
    (hname : getField obj "event_name".data = some name) (hne : name ≠ [])
    (hstart : getField obj "start_date".data = some (ms ++ '/' :: (ds ++ '/' :: ys)))
    (hend : getField obj "end_date".data = some (me ++ '/' :: (de ++ '/' :: ye)))
    (hm1 : decimalValue ms = some m1) (hd1 : decimalValue ds = some d1)
    (hy1 : decimalValue ys = some y1) (hm2 : decimalValue me = some m2)
    (hd2 : decimalValue de = some d2) (hy2 : decimalValue ye = some y2) :
    ∃ ev, normalizeEvent H rnd obj = some ev ∧
      ev.startDate = newDate (some (y1 : Int)) (some ((m1 : Int) - 1)) (some (d1 : Int)) ∧
      ev.endDate = newDate (some (y2 : Int)) (some ((m2 : Int) - 1)) (some (d2 : Int)) ∧
      ev.isMultiDay = numGt ev.endDate.time ev.startDate.time := by
  rw [normalizeEvent_eq, hname, hstart, hend]
  simp only [orEmpty]
  rw [if_neg (by simp [hne]), parseDate_slash H ms ds ys m1 d1 y1 hm1 hd1 hy1,
    parseDate_slash H me de ye m2 d2 y2 hm2 hd2 hy2]
  exact ⟨_, rfl, rfl, rfl, rfl⟩

/-- The duration shown for an event with valid dates, from its two local time values and the
offsets of local time from UTC in force at them. -/
theorem duration_eq (H : Host) (ev : Event) (s t : Int) (hs : ev.startDate.time = some s)
    (ht : ev.endDate.time = some t) :
    duration H ev =
      some (-((-((t - s) - (H.localTZA t - H.localTZA s))) / 86400000) + 1) := by
  unfold duration JSDate.valueOf UTC
  simp only [hs, ht, Option.map_some', numSub]
  norm_num
  ring_nf

theorem daysInclusive_eq (s t : Int) (h : Day s ≤ Day t) :
    (daysInclusive s t : Int) = Day t - Day s + 1 := by
  unfold daysInclusive
  rw [Int.card_Icc]
  omega

/-- For an event whose dates are local midnights, the start day not after the end day: when the
offset of local time from UTC at the end is the offset at the start, or more by less than a day,
the duration shown is the number of calendar days from the start day to the end day inclusive;
when it is less, by less than a day, the duration shown is one day more than that number. -/
theorem duration_midnights (H : Host) (ev : Event) (n1 n2 : Int)
    (hs : ev.startDate.time = some (n1 * msPerDay)) (ht : ev.endDate.time = some (n2 * msPerDay))
    (hle : n1 ≤ n2) :
    (0 ≤ H.localTZA (n2 * msPerDay) - H.localTZA (n1 * msPerDay) ∧
        H.localTZA (n2 * msPerDay) - H.localTZA (n1 * msPerDay) < msPerDay →
      duration H ev = some (daysInclusive (n1 * msPerDay) (n2 * msPerDay) : Int)) ∧
    (-msPerDay < H.localTZA (n2 * msPerDay) - H.localTZA (n1 * msPerDay) ∧
        H.localTZA (n2 * msPerDay) - H.localTZA (n1 * msPerDay) < 0 →
      duration H ev = some ((daysInclusive (n1 * msPerDay) (n2 * msPerDay) : Int) + 1)) := by
  rw [duration_eq H ev _ _ hs ht, daysInclusive_eq _ _ (by rw [Day_mul, Day_mul]; exact hle),
    Day_mul, Day_mul]
  generalize H.localTZA (n2 * msPerDay) = a
  generalize H.localTZA (n1 * msPerDay) = b
  unfold msPerDay
  constructor
  · intro h
    congr 1
    omega
  · intro h
    congr 1
    omega

/-- C11, counterexamples. (1) A row whose dates are 03/15/2026 and 03/17/2026 and which has no
`event_name` is not returned as an event: `normalizeEvent` returns null. (2) In the time zone
Europe/Bucharest the row from 10/24/2026 to 10/26/2026, three calendar days across the clock
change of 25 October, becomes a multi-day event whose two midnights are 49 hours apart, and the
duration computed for it is 4 days; in a zone without that clock change the same row gives 3. -/
theorem normalizeEvent_duration_differs :
    normalizeEvent bucharestHost ['r'] rowMarchNoName = none ∧
    (normalizeEvent bucharestHost ['r'] rowOctober = some eventOctober ∧
      eventOctober.isMultiDay = true ∧
      eventOctober.startDate = civil 2026 10 24 ∧ eventOctober.endDate = civil 2026 10 26 ∧
      numSub (eventOctober.endDate.valueOf bucharestHost)
        (eventOctober.startDate.valueOf bucharestHost) = some (49 * 3600000) ∧
      duration bucharestHost eventOctober = some 4 ∧
      daysInclusive (MakeDay 2026 9 24 * msPerDay) (MakeDay 2026 9 26 * msPerDay) = 3 ∧
      duration asciiHost eventOctober = some 3) := by
  decide

/-- C11, as amended. For a row with a non-empty `event_name` whose start and end dates are valid
dates written as month, day and four-digit year, the end strictly later than the start,
`normalizeEvent` returns an event with those dates and `isMultiDay = true`; and when the offset
of local time from UTC at the end date is the offset at the start date (or more, by less than a
day), the duration `openModal` computes for it is the number of calendar days from the start day
to the end day inclusive. -/
theorem normalizeEvent_multiDay (H : Host) (rnd : Str) (obj : RawRow) (name : Str)
    (ms ds ys me de ye : Str) (m1 d1 y1 m2 d2 y2 : Nat)
    (hname : getField obj "event_name".data = some name) (hne : name ≠ [])
    (hstart : getField obj "start_date".data = some (ms ++ '/' :: (ds ++ '/' :: ys)))
    (hend : getField obj "end_date".data = some (me ++ '/' :: (de ++ '/' :: ye)))
    (hm1 : decimalValue ms = some m1) (hd1 : decimalValue ds = some d1)
    (hy1 : decimalValue ys = some y1) (hm2 : decimalValue me = some m2)
    (hd2 : decimalValue de = some d2) (hy2 : decimalValue ye = some y2)
    (hv1 : (1000 ≤ y1 ∧ y1 ≤ 9999) ∧ (1 ≤ m1 ∧ m1 ≤ 12) ∧ 1 ≤ d1 ∧ (d1 : Int) ≤ daysInMonth y1 m1)
    (hv2 : (1000 ≤ y2 ∧ y2 ≤ 9999) ∧ (1 ≤ m2 ∧ m2 ≤ 12) ∧ 1 ≤ d2 ∧ (d2 : Int) ≤ daysInMonth y2 m2)
    (hlt : civilBefore y1 m1 d1 y2 m2 d2) :
    ∃ ev, normalizeEvent H rnd obj = some ev ∧ ev.startDate = civil y1 m1 d1 ∧
      ev.endDate = civil y2 m2 d2 ∧ ev.isMultiDay = true ∧
      (0 ≤ H.localTZA (MakeDay y2 (m2 - 1) d2 * msPerDay) -
            H.localTZA (MakeDay y1 (m1 - 1) d1 * msPerDay) ∧
          H.localTZA (MakeDay y2 (m2 - 1) d2 * msPerDay) -
            H.localTZA (MakeDay y1 (m1 - 1) d1 * msPerDay) < msPerDay →
        duration H ev = some (daysInclusive (MakeDay y1 (m1 - 1) d1 * msPerDay)
          (MakeDay y2 (m2 - 1) d2 * msPerDay) : Int)) := by
  obtain ⟨ev, h1, h2, h3, h4⟩ := normalizeEvent_slash H rnd obj name ms ds ys me de ye
    m1 d1 y1 m2 d2 y2 hname hne hstart hend hm1 hd1 hy1 hm2 hd2 hy2
  have hdl1 := daysInMonth_le y1 m1
  have hdl2 := daysInMonth_le y2 m2
  have hmi1 : (1 : Int) ≤ m1 ∧ (m1 : Int) ≤ 12 := by omega
  have hmi2 : (1 : Int) ≤ m2 ∧ (m2 : Int) ≤ 12 := by omega
  have hdi1 : (1 : Int) ≤ d1 ∧ (d1 : Int) ≤ daysInMonth y1 m1 := ⟨by omega, hv1.2.2.2⟩
  have hdi2 : (1 : Int) ≤ d2 ∧ (d2 : Int) ≤ daysInMonth y2 m2 := ⟨by omega, hv2.2.2.2⟩
  rw [newDate_eq_civil y1 m1 d1 (by omega) hmi1 (by omega)] at h2
  rw [newDate_eq_civil y2 m2 d2 (by omega) hmi2 (by omega)] at h3
  have hlt' := MakeDay_lt_of_civilBefore y1 m1 d1 y2 m2 d2 hmi1 hdi1 hmi2 hdi2 hlt
  have hs : ev.startDate.time = some (MakeDay y1 (m1 - 1) d1 * msPerDay) := by rw [h2]; rfl
  have ht : ev.endDate.time = some (MakeDay y2 (m2 - 1) d2 * msPerDay) := by rw [h3]; rfl
  refine ⟨ev, h1, h2, h3, ?_, (duration_midnights H ev _ _ hs ht (le_of_lt hlt')).1⟩
  rw [h4, hs, ht]
  simp only [numGt, numLt, decide_eq_true_eq]
  unfold msPerDay
  omega

/-- C11 as amended, worked example: in the time zone Europe/Bucharest the row from 03/15/2026 to
03/17/2026 gives `isMultiDay = true` and a duration of 3 days. -/
theorem normalizeEvent_multiDay_witness :
    (civilBefore 2026 3 15 2026 3 17 ∧
      bucharestHost.localTZA (MakeDay 2026 (3 - 1) 17 * msPerDay) -
        bucharestHost.localTZA (MakeDay 2026 (3 - 1) 15 * msPerDay) = 0) ∧
    (∃ ev, normalizeEvent bucharestHost ['r'] rowMarch = some ev ∧
      ev.startDate = civil (2026 : Nat) (3 : Nat) (15 : Nat) ∧
      ev.endDate = civil (2026 : Nat) (3 : Nat) (17 : Nat) ∧ ev.isMultiDay = true ∧
      (0 ≤ bucharestHost.localTZA (MakeDay (2026 : Nat) ((3 : Nat) - 1) (17 : Nat) * msPerDay) -
            bucharestHost.localTZA (MakeDay (2026 : Nat) ((3 : Nat) - 1) (15 : Nat) * msPerDay) ∧
          bucharestHost.localTZA (MakeDay (2026 : Nat) ((3 : Nat) - 1) (17 : Nat) * msPerDay) -
            bucharestHost.localTZA (MakeDay (2026 : Nat) ((3 : Nat) - 1) (15 : Nat) * msPerDay) <
              msPerDay →
        duration bucharestHost ev =
          some (daysInclusive (MakeDay (2026 : Nat) ((3 : Nat) - 1) (15 : Nat) * msPerDay)
            (MakeDay (2026 : Nat) ((3 : Nat) - 1) (17 : Nat) * msPerDay) : Int))) ∧
    normalizeEvent bucharestHost ['r'] rowMarch = some eventMarch ∧
    eventMarch.isMultiDay = true ∧ duration bucharestHost eventMarch = some 3 ∧
    daysInclusive (MakeDay 2026 2 15 * msPerDay) (MakeDay 2026 2 17 * msPerDay) = 3 :=
  ⟨⟨Or.inr ⟨rfl, Or.inr ⟨rfl, by decide⟩⟩, by decide⟩,
    normalizeEvent_multiDay bucharestHost ['r'] rowMarch "Summit".data
      "03".data "15".data "2026".data "03".data "17".data "2026".data 3 15 2026 3 17 2026
      (by decide) (by decide) (by decide) (by decide) (by decide) (by decide) (by decide)
      (by decide) (by decide) (by decide)
      ⟨by decide, by decide, by decide, by decide⟩ ⟨by decide, by decide, by decide, by decide⟩
      (Or.inr ⟨rfl, Or.inr ⟨rfl, by decide⟩⟩),
    by decide, by decide, by decide, by decide⟩

/-! ## Malformed rows -/

theorem split_joinLines (ls : List Str) (hne : ls ≠ []) (h : ∀ l ∈ ls, '\n' ∉ l) :
    split '\n' (joinLines ls) = ls := by
  induction ls with
  | nil => exact absurd rfl hne
  | cons l rest ih =>
    cases rest with
    | nil => exact split_of_not_mem _ _ (h l (List.mem_cons_self l []))
    | cons m ms =>
      rw [joinLines, split_append_sep _ _ _ (h l (List.mem_cons_self l _)),
        ih (by simp) fun x hx => h x (List.mem_cons_of_mem l hx)]

theorem buildRow_random (H : Host) (r : Nat → Str) (headers values : List Str) (obj : RawRow) :
    buildRow { H with random := r } headers values obj = buildRow H headers values obj := by
  induction headers generalizing values obj with
  | nil => rfl
  | cons h hs ih =>
    unfold buildRow
    rw [ih]
    rfl

theorem normalizeEvent_random (H : Host) (r : Nat → Str) (rnd : Str) (obj : RawRow) :
    normalizeEvent { H with random := r } rnd obj = normalizeEvent H rnd obj := rfl

/-- A row that carries an identifier is normalised without a random token. -/
theorem normalizeEvent_of_id (H : Host) (rnd rnd' : Str) (obj : RawRow)
    (hid : orEmpty (getField obj "#".data) ≠ []) :
    normalizeEvent H rnd obj = normalizeEvent H rnd' obj := by
  rw [normalizeEvent_eq, normalizeEvent_eq]
  simp only [if_neg hid]

/-- The step of the loop of `parseCSV` on one line. -/
theorem parseCSVRows_cons (H : Host) (headers : List Str) (l : Str) (ls : List Str) (k : Nat) :
    parseCSVRows H headers (l :: ls) k =
      if trim l = [] then parseCSVRows H headers ls k
      else if orEmpty (getField (rowOfLine H headers l) "event_name".data) = [] then
        parseCSVRows H headers ls k
      else
        match normalizeEvent H (H.random k) (rowOfLine H headers l) with
        | some event =>
          event :: parseCSVRows H headers ls
            (if orEmpty (getField (rowOfLine H headers l) "#".data) = [] then k + 1 else k)
        | none => parseCSVRows H headers ls k := by
  rw [parseCSVRows]
  simp only [orElse_nil]
  rfl

/-- A row with an empty name, an empty start date or a start date that `parseDate` rejects is
skipped by the loop of `parseCSV`, and draws no random token. -/
theorem parseCSVRows_malformed (H : Host) (headers : List Str) (bad : Str) (ls : List Str)
    (k : Nat)
    (hbad : orEmpty (getField (rowOfLine H headers bad) "event_name".data) = [] ∨
      orEmpty (getField (rowOfLine H headers bad) "start_date".data) = [] ∨
      parseDate H (orEmpty (getField (rowOfLine H headers bad) "start_date".data)) = none) :
    parseCSVRows H headers (bad :: ls) k = parseCSVRows H headers ls k := by
  rw [parseCSVRows_cons]
  by_cases h1 : trim bad = []
  · rw [if_pos h1]
  rw [if_neg h1]
  by_cases h2 : orEmpty (getField (rowOfLine H headers bad) "event_name".data) = []
  · rw [if_pos h2]
  rw [if_neg h2]
  have hnone : normalizeEvent H (H.random k) (rowOfLine H headers bad) = none := by
    rw [normalizeEvent_eq]
    rcases hbad with h | h | h
    · exact absurd h h2
    · rw [if_pos (Or.inr h)]
    · by_cases hc : orEmpty (getField (rowOfLine H headers bad) "event_name".data) = [] ∨
          orEmpty (getField (rowOfLine H headers bad) "start_date".data) = []
      · rw [if_pos hc]
      · rw [if_neg hc, h]
  rw [hnone]

theorem parseCSVRows_insert (H : Host) (headers : List Str) (before after : List Str) (bad : Str)
    (k : Nat)
    (hbad : orEmpty (getField (rowOfLine H headers bad) "event_name".data) = [] ∨
      orEmpty (getField (rowOfLine H headers bad) "start_date".data) = [] ∨
      parseDate H (orEmpty (getField (rowOfLine H headers bad) "start_date".data)) = none) :
    parseCSVRows H headers (before ++ bad :: after) k =
      parseCSVRows H headers (before ++ after) k := by
  induction before generalizing k with
  | nil => exact parseCSVRows_malformed H headers bad after k hbad
  | cons l ls ih =>
    rw [List.cons_append, List.cons_append, parseCSVRows_cons, parseCSVRows_cons]
    simp only [ih]

/-- When every row that is not blank carries an identifier, what the loop of `parseCSV` loads
does not depend on the random tokens. -/
theorem parseCSVRows_random (H : Host) (r : Nat → Str) (headers lines : List Str) (k k' : Nat)
    (hid : ∀ l ∈ lines, trim l ≠ [] →
      orEmpty (getField (rowOfLine H headers l) "#".data) ≠ []) :
    parseCSVRows { H with random := r } headers lines k' = parseCSVRows H headers lines k := by
  induction lines generalizing k k' with
  | nil => rfl
  | cons l ls ih =>
    have hrow : rowOfLine { H with random := r } headers l = rowOfLine H headers l :=
      buildRow_random H r headers _ _
    have ihk := fun a b => ih a b fun x hx => hid x (List.mem_cons_of_mem l hx)
    rw [parseCSVRows_cons, parseCSVRows_cons, hrow]
    by_cases h1 : trim l = []
    · rw [if_pos h1, if_pos h1]; exact ihk _ _
    rw [if_neg h1, if_neg h1]
    by_cases h2 : orEmpty (getField (rowOfLine H headers l) "event_name".data) = []
    · rw [if_pos h2, if_pos h2]; exact ihk _ _
    rw [if_neg h2, if_neg h2]
    have hl := hid l (List.mem_cons_self l ls) h1
    rw [normalizeEvent_random, normalizeEvent_of_id H _ (H.random k) _ hl]
    cases normalizeEvent H (H.random k) (rowOfLine H headers l) with
    | none => exact ihk _ _
    | some ev => exact congrArg _ (ihk _ _)

/-- C12. A malformed row never affects the other rows: for a document whose data rows all carry
a non-empty `#` identifier, inserting after the header, at any position, one more row that has an
empty `event_name`, an empty `start_date`, or a `start_date` that `parseDate` rejects leaves the
list returned by `parseCSV` unchanged, whatever random tokens the two calls would draw. -/
theorem parseCSV_insert_malformed (H : Host) (otherRandom : Nat → Str) (header : Str)
    (before after : List Str) (bad : Str)
    (hnl : ∀ l ∈ header :: bad :: (before ++ after), '\n' ∉ l)
    (hid : ∀ l ∈ before ++ after, trim l ≠ [] →
      orEmpty (getField (rowOfLine H (parseCSVLine header) l) "#".data) ≠ [])
    (hbad : orEmpty (getField (rowOfLine H (parseCSVLine header) bad) "event_name".data) = [] ∨
      orEmpty (getField (rowOfLine H (parseCSVLine header) bad) "start_date".data) = [] ∨
      parseDate H (orEmpty (getField (rowOfLine H (parseCSVLine header) bad)
        "start_date".data)) = none) :
    parseCSV { H with random := otherRandom } (joinLines (header :: (before ++ bad :: after))) =
      parseCSV H (joinLines (header :: (before ++ after))) := by
  have hnl1 : ∀ l ∈ header :: (before ++ bad :: after), '\n' ∉ l := by
    intro l hl
    apply hnl l
    simp only [List.mem_cons, List.mem_append] at hl ⊢
    tauto
  have hnl2 : ∀ l ∈ header :: (before ++ after), '\n' ∉ l := by
    intro l hl
    apply hnl l
    simp only [List.mem_cons, List.mem_append] at hl ⊢
    tauto
  have hrows : parseCSVRows { H with random := otherRandom } (parseCSVLine header)
      (before ++ bad :: after) 0 = parseCSVRows H (parseCSVLine header) (before ++ after) 0 := by
    rw [← parseCSVRows_random H otherRandom _ _ 0 0 hid]
    exact parseCSVRows_insert _ _ before after bad 0 (by
      rw [show rowOfLine { H with random := otherRandom } (parseCSVLine header) bad =
        rowOfLine H (parseCSVLine header) bad from buildRow_random H otherRandom _ _ _]
      exact hbad)
  unfold parseCSV
  rw [split_joinLines _ (by simp) hnl1, split_joinLines _ (by simp) hnl2]
  cases hba : before ++ bad :: after with
  | nil => simp at hba
  | cons x xs =>
    rw [hba] at hrows
    simp only
    rw [hrows]
    cases hb : before ++ after with
    | nil => rfl
    | cons y ys => rfl

/-- C12, worked example: a line with an empty name is inserted between two well-formed lines;
lines with an empty or an unparseable start date are dropped in the same way. -/
theorem parseCSV_insert_malformed_witness :
    (∀ l ∈ lineHeader :: lineNoName :: ([lineLaunch] ++ [lineDemo]), '\n' ∉ l) ∧
    (∀ l ∈ [lineLaunch] ++ [lineDemo], trim l ≠ [] →
      orEmpty (getField (rowOfLine asciiHost (parseCSVLine lineHeader) l) "#".data) ≠ []) ∧
    orEmpty (getField (rowOfLine asciiHost (parseCSVLine lineHeader) lineNoName)
      "event_name".data) = [] ∧
    parseCSV { asciiHost with random := fun _ => ['z'] }
        (joinLines (lineHeader :: ([lineLaunch] ++ lineNoName :: [lineDemo]))) =
      parseCSV asciiHost (joinLines (lineHeader :: ([lineLaunch] ++ [lineDemo]))) ∧
    (parseCSV asciiHost (joinLines (lineHeader :: ([lineLaunch] ++ [lineDemo])))).map
      (fun ev => (ev.id, ev.name)) = [("2".data, "Demo, live".data), ("1".data, "Launch".data)] ∧
    parseCSV asciiHost (joinLines [lineHeader, lineNoStart, lineLaunch, lineDemo, lineBadStart]) =
      parseCSV asciiHost (joinLines [lineHeader, lineLaunch, lineDemo]) :=
  ⟨by decide, by decide, by decide,
    parseCSV_insert_malformed asciiHost (fun _ => ['z']) lineHeader [lineLaunch] [lineDemo]
      lineNoName (by decide) (by decide) (Or.inl (by decide)),
    by decide, by decide⟩

/-! ## The overlap test of the month query -/

theorem mul_Day_of_midnight (s : Int) (h : s % msPerDay = 0) : Day s * msPerDay = s := by
  unfold Day msPerDay at *
  omega

/-- An event that starts or ends in the month, with dates at midnight and the start not after
the end, passes the single overlap test, when the year is outside 0..99 and the first and the
last day of the month are valid dates. -/
theorem eventOverlapsMonth_of_start_or_end (ev : Event) (month year s t : Int)
    (hs : ev.startDate.time = some s) (ht : ev.endDate.time = some t)
    (hsm : s % msPerDay = 0) (htm : t % msPerDay = 0) (hle : s ≤ t)
    (hy : ¬(0 ≤ year ∧ year ≤ 99))
    (hF : (newDate (some year) (some month) (some 1)).time ≠ none)
    (hL : (newDate (some year) (some (month + 1)) (some 0)).time ≠ none)
    (h : (YearFromDay (Day s) = year ∧ MonthFromDay (Day s) = month) ∨
      (YearFromDay (Day t) = year ∧ MonthFromDay (Day t) = month)) :
    eventOverlapsMonth month year ev = true := by
  have hm : 0 ≤ month ∧ month ≤ 11 := by
    rcases h with h | h
    · exact h.2 ▸ MonthFromDay_range _
    · exact h.2 ▸ MonthFromDay_range _
  have es := mul_Day_of_midnight s hsm
  have et := mul_Day_of_midnight t htm
  have hLd := MakeDay_date year (month + 1) 0
  rw [newDate_of_year _ _ _ hy] at hF hL
  obtain ⟨xF, hxF⟩ := Option.ne_none_iff_exists'.1 hF
  obtain ⟨xL, hxL⟩ := Option.ne_none_iff_exists'.1 hL
  have hF' := hxF
  have hL' := hxL
  simp only at hF' hL'
  rw [TimeClip_some_iff] at hF' hL'
  unfold eventOverlapsMonth
  rw [newDate_of_year _ _ _ hy, newDate_of_year _ _ _ hy]
  simp only [hs, ht, numGe] at hxF hxL ⊢
  rw [hxF, hxL, Bool.and_eq_true, numLe_some, numLe_some, hF'.1, hL'.1]
  rcases h with h | h
  · have hb := (year_month_iff _ year month hm).1 h
    generalize MakeDay year month 1 = F at *
    generalize MakeDay year (month + 1) 1 = L1 at *
    generalize MakeDay year (month + 1) 0 = L at *
    generalize Day s = a at *
    unfold msPerDay at *
    omega
  · have hb := (year_month_iff _ year month hm).1 h
    generalize MakeDay year month 1 = F at *
    generalize MakeDay year (month + 1) 1 = L1 at *
    generalize MakeDay year (month + 1) 0 = L at *
    generalize Day t = b at *
    unfold msPerDay at *
    omega

/-- An event that passes the filter of `getEventsForMonth` has a day in the month, when its
dates are valid, its start is not after its end, and the year is outside 0..99. -/
theorem day_in_month_of_eventInMonth (ev : Event) (month year s t : Int)
    (hs : ev.startDate.time = some s) (ht : ev.endDate.time = some t) (hle : s ≤ t)
    (hy : ¬(0 ≤ year ∧ year ≤ 99)) (hm : 0 ≤ month ∧ month ≤ 11)
    (h : eventInMonth month year ev = true) :
    ∃ n, (YearFromDay n = year ∧ MonthFromDay n = month) ∧ Day s ≤ n ∧ n ≤ Day t := by
  have hdle : Day s ≤ Day t := by unfold Day msPerDay; omega
  unfold eventInMonth at h
  simp only [JSDate.getFullYear, JSDate.getMonth, hs, ht, Option.map_some', Bool.or_eq_true,
    Bool.and_eq_true, numEq_some, numGe] at h
  rcases h with (h | h) | h
  · exact ⟨Day s, h, le_refl _, hdle⟩
  · exact ⟨Day t, h, hdle, le_refl _⟩
  · rw [newDate_of_year _ _ _ hy, newDate_of_year _ _ _ hy] at h
    obtain ⟨h1, h2⟩ := h
    obtain ⟨a, xL, ha, hxL, hle1⟩ := numLe_eq_true _ _ h1
    obtain ⟨xF, b, hxF, hb, hle2⟩ := numLe_eq_true _ _ h2
    cases ha
    cases hb
    simp only at hxL hxF
    rw [TimeClip_some_iff] at hxL hxF
    have hLd := MakeDay_date year (month + 1) 0
    have e1 := MakeDay_of_month year month 1 hm
    have e2 := MakeDay_succ_month year month 1 hm
    have hbd := monthOffset_bounds (InLeapYear year) month (DaysInYear_eq year).2 hm
    have hds := Day_bounds s
    have hdt := Day_bounds t
    by_cases hc : MakeDay year month 1 ≤ Day s
    · refine ⟨Day s, (year_month_iff _ year month hm).2 ⟨hc, ?_⟩, le_refl _, hdle⟩
      generalize monthOffset (InLeapYear year) month = o1 at *
      generalize monthOffset (InLeapYear year) (month + 1) = o2 at *
      generalize MakeDay year month 1 = F at *
      generalize MakeDay year (month + 1) 1 = L1 at *
      generalize MakeDay year (month + 1) 0 = L at *
      generalize Day s = da at *
      generalize Day t = db at *
      unfold msPerDay at *
      omega
    · refine ⟨MakeDay year month 1, (year_month_iff _ year month hm).2 ⟨le_refl _, ?_⟩, ?_, ?_⟩
      · generalize monthOffset (InLeapYear year) month = o1 at *
        generalize monthOffset (InLeapYear year) (month + 1) = o2 at *
        generalize MakeDay year month 1 = F at *
        generalize MakeDay year (month + 1) 1 = L1 at *
        omega
      · omega
      · generalize MakeDay year month 1 = F at *
        generalize Day t = db at *
        unfold msPerDay at *
        omega

/-- C13, counterexamples. (1) For March of year 50, an event on 10 March of year 50, a valid
date at midnight, is returned by `getEventsForMonth(2, 50)` through its first disjunct and fails
the single overlap test, whose bounds `new Date(50, ...)` are dates of 1950; and the event from
year 49 to year 51, which has days in that month, is not returned. (2) For April of year
-271821, in which the range of `Date` begins, an event on the 25th is returned through the first
disjunct and fails the overlap test, because the first day of that month is an Invalid Date. -/
theorem getEventsForMonth_overlap_differs :
    (eventMarchYear50.startDate.time = some (MakeDay 50 2 10 * msPerDay) ∧
      eventMarchYear50.endDate.time = some (MakeDay 50 2 10 * msPerDay) ∧
      TimeClip (MakeDay 50 2 10 * msPerDay) = some (MakeDay 50 2 10 * msPerDay) ∧
      MakeDay 50 2 10 * msPerDay % msPerDay = 0 ∧
      getEventsForMonth [eventMarchYear50] 2 50 = [eventMarchYear50] ∧
      [eventMarchYear50].filter (eventOverlapsMonth 2 50) = []) ∧
    ((YearFromDay (MakeDay 50 2 15) = 50 ∧ MonthFromDay (MakeDay 50 2 15) = 2) ∧
      eventAcrossYear50.startDate.time = some (MakeDay 49 11 1 * msPerDay) ∧
      eventAcrossYear50.endDate.time = some (MakeDay 51 0 31 * msPerDay) ∧
      Day (MakeDay 49 11 1 * msPerDay) ≤ MakeDay 50 2 15 ∧
      MakeDay 50 2 15 ≤ Day (MakeDay 51 0 31 * msPerDay) ∧
      getEventsForMonth [eventAcrossYear50] 2 50 = []) ∧
    (eventFirstMonth.startDate.time = some (MakeDay (-271821) 3 25 * msPerDay) ∧
      eventFirstMonth.endDate.time = some (MakeDay (-271821) 3 25 * msPerDay) ∧
      TimeClip (MakeDay (-271821) 3 25 * msPerDay) = some (MakeDay (-271821) 3 25 * msPerDay) ∧
      MakeDay (-271821) 3 25 * msPerDay % msPerDay = 0 ∧
      (newDate (some (-271821)) (some 3) (some 1)).time = none ∧
      getEventsForMonth [eventFirstMonth] 3 (-271821) = [eventFirstMonth] ∧
      [eventFirstMonth].filter (eventOverlapsMonth 3 (-271821)) = []) := by
  decide

/-- C13, as amended. For an event list in which every event has valid dates without a time
component and an end not before its start, and for a month of a year outside 0..99:
`getEventsForMonth(month, year)` returns exactly the events that have at least one day in the
month; and when the first and the last day of the month are themselves valid dates, the first
two disjuncts are redundant, `getEventsForMonth(month, year)` being the filter of the list by
the single overlap test. -/
theorem getEventsForMonth_overlap (events : List Event) (month year : Int)
    (hy : ¬(0 ≤ year ∧ year ≤ 99)) (hm : 0 ≤ month ∧ month ≤ 11)
    (hev : ∀ ev ∈ events, ∃ s t, ev.startDate.time = some s ∧ ev.endDate.time = some t ∧
      TimeClip s = some s ∧ TimeClip t = some t ∧ s % msPerDay = 0 ∧ t % msPerDay = 0 ∧ s ≤ t) :
    ((newDate (some year) (some month) (some 1)).time ≠ none →
      (newDate (some year) (some (month + 1)) (some 0)).time ≠ none →
      getEventsForMonth events month year = events.filter (eventOverlapsMonth month year)) ∧
    ∀ ev, ev ∈ getEventsForMonth events month year ↔
      ev ∈ events ∧ ∃ n s t, ev.startDate.time = some s ∧ ev.endDate.time = some t ∧
        (YearFromDay n = year ∧ MonthFromDay n = month) ∧ Day s ≤ n ∧ n ≤ Day t := by
  constructor
  · intro hF hL
    unfold getEventsForMonth
    apply List.filter_congr
    intro ev hmem
    obtain ⟨s, t, hs, ht, -, -, hsm, htm, hle⟩ := hev ev hmem
    have hsplit : eventInMonth month year ev =
        ((numEq ev.startDate.getFullYear (some year) && numEq ev.startDate.getMonth (some month) ||
          numEq ev.endDate.getFullYear (some year) && numEq ev.endDate.getMonth (some month)) ||
          eventOverlapsMonth month year ev) := rfl
    rw [hsplit]
    cases h3 : eventOverlapsMonth month year ev with
    | true => simp
    | false =>
      rw [Bool.or_false]
      by_contra hne
      have h12 := hne
      rw [Bool.not_eq_false] at h12
      simp only [JSDate.getFullYear, JSDate.getMonth, hs, ht, Option.map_some', Bool.or_eq_true,
        Bool.and_eq_true, numEq_some] at h12
      rw [eventOverlapsMonth_of_start_or_end ev month year s t hs ht hsm htm hle hy hF hL h12] at h3
      cases h3
  · intro ev
    unfold getEventsForMonth
    rw [List.mem_filter]
    constructor
    · rintro ⟨hmem, h⟩
      obtain ⟨s, t, hs, ht, -, -, -, -, hle⟩ := hev ev hmem
      obtain ⟨n, hn, hb⟩ := day_in_month_of_eventInMonth ev month year s t hs ht hle hy hm h
      exact ⟨hmem, n, s, t, hs, ht, hn, hb⟩
    · rintro ⟨hmem, n, s, t, hs, ht, hn, hb⟩
      obtain ⟨s', t', hs', ht', hsv, htv, -, -, -⟩ := hev ev hmem
      rw [hs] at hs'
      rw [ht] at ht'
      cases hs'
      cases ht'
      exact ⟨hmem, eventInMonth_of_overlap ev month year s t n hs ht (Day_of_TimeClip s hsv).1
        (Day_of_TimeClip t htv).2 hy hn hb⟩

/-- C13 as amended, worked example: March 2026 and the events from 02/28/2026 to 03/02/2026 and
from 03/30/2026 to 04/02/2026. -/
theorem getEventsForMonth_overlap_witness :
    (newDate (some 2026) (some 2) (some 1)).time ≠ none ∧
    (newDate (some 2026) (some (2 + 1)) (some 0)).time ≠ none ∧
    getEventsForMonth [eventFebToMar, eventMarToApr] 2 2026 =
      [eventFebToMar, eventMarToApr].filter (eventOverlapsMonth 2 2026) ∧
    [eventFebToMar, eventMarToApr].filter (eventOverlapsMonth 2 2026) =
      [eventFebToMar, eventMarToApr] ∧
    getEventsForMonth [eventFebToMar, eventMarToApr] 4 2026 = [] :=
  ⟨by decide, by decide,
    (getEventsForMonth_overlap [eventFebToMar, eventMarToApr] 2 2026 (by decide) (by decide)
      (by
        intro ev hev
        simp only [List.mem_cons, List.mem_singleton, List.not_mem_nil, or_false] at hev
        rcases hev with rfl | rfl
        · exact ⟨MakeDay 2026 1 28 * msPerDay, MakeDay 2026 2 2 * msPerDay, by decide, by decide,
            by decide, by decide, by decide, by decide, by decide⟩
        · exact ⟨MakeDay 2026 2 30 * msPerDay, MakeDay 2026 3 2 * msPerDay, by decide, by decide,
            by decide, by decide, by decide, by decide, by decide⟩)).1 (by decide) (by decide),
    by decide, by decide⟩

/-! ## Documents and their lines -/

theorem split_ne_nil (sep : Char) (s : Str) : split sep s ≠ [] := by
  cases s with
  | nil => simp [split]
  | cons c cs =>
    unfold split
    split_ifs
    · simp
    · split <;> simp

/-- Every document is its lines joined with line feeds, and no line holds a line feed. -/
theorem joinLines_split (s : Str) :
    joinLines (split '\n' s) = s ∧ ∀ l ∈ split '\n' s, '\n' ∉ l := by
  induction s with
  | nil => simp [split, joinLines]
  | cons c cs ih =>
    obtain ⟨ih1, ih2⟩ := ih
    have hne := split_ne_nil '\n' cs
    unfold split
    by_cases hc : c = '\n'
    · rw [if_pos hc]
      cases hsp : split '\n' cs with
      | nil => exact absurd hsp hne
      | cons p ps =>
        rw [hsp] at ih1 ih2
        refine ⟨?_, ?_⟩
        · rw [joinLines, ih1, hc]; rfl
        · intro l hl
          rcases List.mem_cons.1 hl with rfl | hl
          · simp
          · exact ih2 l hl
    · rw [if_neg hc]
      cases hsp : split '\n' cs with
      | nil => exact absurd hsp hne
      | cons p ps =>
        rw [hsp] at ih1 ih2
        simp only
        refine ⟨?_, ?_⟩
        · rw [← ih1]
          cases ps with
          | nil => rfl
          | cons q qs => rfl
        · intro l hl
          rcases List.mem_cons.1 hl with rfl | hl
          · intro hmem
            rcases List.mem_cons.1 hmem with h | h
            · exact hc h.symm
            · exact ih2 p (List.mem_cons_self p ps) h
          · exact ih2 l (List.mem_cons_of_mem p hl)

end EventsCalendar
